import Mathlib

/-!
# p2pbbs: address resolution, bootstrap filtering, discovery loop and line codec

A shallow embedding of `chat/chatconfig.go`, `chat/chatnode.go` and the key
generator of `cmd/generateKey.go`.

* Go strings are lists of characters (`GoString`).
* A Go slice result is an `Option (List _)`: `none` is the `nil` slice.
* A Go `error` result is an `Option _`: `none` is the `nil` error.
* The multiaddr library (`maddr.NewMultiaddr`, `Multiaddr.String`) is an external
  collaborator.  The functions of the repository take it as a parameter
  (`AddrCodec`); `refCodec` is a concrete instance for the `/ip4/../tcp/..`
  addresses the node builds for itself, and `unixCodec` one for `/unix/..` path
  addresses.
* `bufio.Writer` is given with its buffer: `WriteString` passes on what does not
  fit and can fail, `Flush` passes on the rest.
-/

set_option autoImplicit false

namespace P2pbbs

/-- A Go `string`. -/
abbrev GoString := List Char

/-! ## Go library functions used by the code -/

/-- Go `strings.Replace(s, old, new, 1)`: the first occurrence of `old` in `s` is
replaced by `new`; `s` itself when `old` does not occur. -/
def stringsReplace1 (old new : GoString) : GoString → GoString
  | [] => if old = [] then new else []
  | c :: s =>
    if old.isPrefixOf (c :: s) then new ++ (c :: s).drop old.length
    else c :: stringsReplace1 old new s

/-- Go `%d` of an `int`. -/
def fmtInt (i : Int) : GoString :=
  if i < 0 then '-' :: Nat.toDigits 10 i.natAbs else Nat.toDigits 10 i.toNat

/-- Go `fmt.Sprintf("/ip4/%s/tcp/%d", ipString, port)`. -/
def sprintfIp4Tcp (ipString : GoString) (port : Int) : GoString :=
  "/ip4/".toList ++ ipString ++ "/tcp/".toList ++ fmtInt port

deriving instance DecidableEq for Except

/-! ## The address codec (external) -/

/-- The two operations of go-multiaddr that the code calls: `maddr.NewMultiaddr`
and the `String` method of a `Multiaddr`. -/
structure AddrCodec (α ε : Type) where
  /-- Go `maddr.NewMultiaddr(s)`: an address or an error. -/
  NewMultiaddr : GoString → Except ε α
  /-- Go `addr.String()`. -/
  AddrString : α → GoString

/-! ## chatconfig.go -/

/-- Go `Configuration`. `Port` is a Go `int`; every value of it is an `Int`. -/
structure Configuration where
  Port : Int
  RendezvousString : GoString
  BootstrapPeers : List GoString
  ListenIps : List GoString
  ProtocolID : GoString
  KeyFile : GoString

/-- The inner loop of `GetBootstrapPeers`: `excluded` becomes true at the first
entry `e` of `exclude` with `e == addr.String()`. -/
def excludedLoop (exclude : List GoString) (addrStr : GoString) : Bool :=
  match exclude with
  | [] => false
  | e :: es => if e = addrStr then true else excludedLoop es addrStr

/-- The text handed to `maddr.NewMultiaddr` for a bootstrap entry:
`addrString := strings.Replace(addrString, "//", "/", 1)` followed by
`strings.Replace("//", "/", addrString, 1)`. -/
def bootstrapAddrText (addrString : GoString) : GoString :=
  let addrString := stringsReplace1 "//".toList "/".toList addrString
  stringsReplace1 "/".toList addrString "//".toList

/-- The `for _, addrString := range cfg.BootstrapPeers` loop of
`GetBootstrapPeers`, with the slice `peers` built so far. The result is the pair
`(peers, err)` that the function returns. -/
def GetBootstrapPeers.loop {α ε : Type} (codec : AddrCodec α ε) (exclude : List GoString) :
    List GoString → List α → Option (List α) × Option ε
  | [], peers => (some peers, none)
  | addrString :: rest, peers =>
    if addrString = [] then GetBootstrapPeers.loop codec exclude rest peers
    else
      match codec.NewMultiaddr (bootstrapAddrText addrString) with
      | .error err => (none, some err)
      | .ok addr =>
        let excluded := excludedLoop exclude (codec.AddrString addr)
        if !excluded then GetBootstrapPeers.loop codec exclude rest (peers ++ [addr])
        else GetBootstrapPeers.loop codec exclude rest peers

/-- Go `(cfg *Configuration) GetBootstrapPeers(exclude []string)`. -/
def GetBootstrapPeers {α ε : Type} (codec : AddrCodec α ε) (cfg : Configuration)
    (exclude : List GoString) : Option (List α) × Option ε :=
  GetBootstrapPeers.loop codec exclude cfg.BootstrapPeers []

/-- The interface list `GetListenAddresses` iterates over: `cfg.ListenIps`, or
`"0.0.0.0"` appended to it when it has no entry. -/
def listenIpList (cfg : Configuration) : List GoString :=
  let ipList := cfg.ListenIps
  if ipList.length < 1 then ipList ++ ["0.0.0.0".toList] else ipList

/-- The `for _, ipString := range ipList` loop of `GetListenAddresses`. -/
def GetListenAddresses.loop {α ε : Type} (codec : AddrCodec α ε) (port : Int) :
    List GoString → List α → Option (List α) × Option ε
  | [], addresses => (some addresses, none)
  | ipString :: rest, addresses =>
    let addrString := sprintfIp4Tcp ipString port
    match codec.NewMultiaddr addrString with
    | .error err => (none, some err)
    | .ok addr => GetListenAddresses.loop codec port rest (addresses ++ [addr])

/-- Go `(cfg *Configuration) GetListenAddresses()`. -/
def GetListenAddresses {α ε : Type} (codec : AddrCodec α ε) (cfg : Configuration) :
    Option (List α) × Option ε :=
  GetListenAddresses.loop codec cfg.Port (listenIpList cfg) []

/-! ## A reference codec for `/ip4/<dotted quad>/tcp/<port>` addresses

go-multiaddr is not part of the repository. `refCodec` reproduces what its
`NewMultiaddr` and `String` do on the addresses the node builds for itself:
trailing slashes are trimmed, the text is split at `/` and must begin with `/`,
and the components are read one protocol at a time. Only the protocols `ip4`
(a dotted quad of four octets `0..255` without leading zeros) and `tcp` (an
unsigned decimal port below `65536`) are covered; every other text is rejected
here, also where the library would accept it. -/

/-- One component of a reference address. -/
inductive Component where
  | ip4 (a b c d : Nat)
  | tcp (port : Nat)
  deriving DecidableEq, Repr

/-- The errors of the reference codec. -/
inductive RefError where
  | mustBeginWithSlash
  | emptyMultiaddr
  | invalidComponent
  deriving DecidableEq, Repr

/-- Go `strings.TrimRight(s, "/")`. -/
def trimRightSlash (s : GoString) : GoString :=
  (s.reverse.dropWhile (fun c => c = '/')).reverse

/-- Go `strings.Split(s, sep)` for a one-character separator. -/
def splitOnChar (sep : Char) : GoString → List GoString
  | [] => [[]]
  | c :: s =>
    if c = sep then [] :: splitOnChar sep s
    else
      match splitOnChar sep s with
      | [] => [[c]]
      | w :: ws => (c :: w) :: ws

/-- The value of a decimal digit. -/
def digitVal (c : Char) : Option Nat :=
  if '0' ≤ c ∧ c ≤ '9' then some (c.toNat - '0'.toNat) else none

/-- An unsigned decimal numeral. -/
def parseDecimal (s : GoString) : Option Nat :=
  if s = [] then none
  else s.foldlM (fun acc c => (digitVal c).map (fun d => acc * 10 + d)) 0

/-- One octet of a dotted quad: one to three digits, no leading zero, at most 255. -/
def parseOctet (s : GoString) : Option Nat :=
  if s.length > 3 ∨ (s.length > 1 ∧ s.head? = some '0') then none
  else (parseDecimal s).bind (fun n => if n ≤ 255 then some n else none)

/-- The value of an `ip4` component. -/
def parseIp4 (s : GoString) : Option Component :=
  match splitOnChar '.' s with
  | [a, b, c, d] =>
    (parseOctet a).bind fun a => (parseOctet b).bind fun b =>
    (parseOctet c).bind fun c => (parseOctet d).map fun d => Component.ip4 a b c d
  | _ => none

/-- The value of a `tcp` component: the library rejects a port `>= 65536`. -/
def parsePort (s : GoString) : Option Component :=
  (parseDecimal s).bind (fun i => if i ≥ 65536 then none else some (Component.tcp i))

/-- The components of a split address text, protocol name then value. -/
def parseComponents : List GoString → Option (List Component)
  | [] => some []
  | [_] => none
  | name :: value :: rest =>
    let comp :=
      if name = "ip4".toList then parseIp4 value
      else if name = "tcp".toList then parsePort value
      else none
    comp.bind (fun c => (parseComponents rest).map (fun cs => c :: cs))

/-- `NewMultiaddr` of the reference codec. -/
def refNewMultiaddr (s : GoString) : Except RefError (List Component) :=
  let s := trimRightSlash s
  match splitOnChar '/' s with
  | [] :: sp =>
    if sp.length = 0 then .error RefError.emptyMultiaddr
    else
      match parseComponents sp with
      | some cs => .ok cs
      | none => .error RefError.invalidComponent
  | _ => .error RefError.mustBeginWithSlash

/-- The canonical text of a component. -/
def Component.text : Component → GoString
  | .ip4 a b c d =>
    "/ip4/".toList ++ Nat.toDigits 10 a ++ ['.'] ++ Nat.toDigits 10 b ++ ['.']
      ++ Nat.toDigits 10 c ++ ['.'] ++ Nat.toDigits 10 d
  | .tcp port => "/tcp/".toList ++ Nat.toDigits 10 port

/-- `String` of the reference codec. -/
def refAddrString (a : List Component) : GoString :=
  (a.map Component.text).flatten

/-- The reference codec. -/
def refCodec : AddrCodec (List Component) RefError where
  NewMultiaddr := refNewMultiaddr
  AddrString := refAddrString

/-! ## Configurations used as concrete inputs -/

/-- A configuration with the given port, bootstrap entries and listen interfaces. -/
def mkConfig (port : Int) (bootstrap listen : List GoString) : Configuration :=
  { Port := port, RendezvousString := "meet".toList, BootstrapPeers := bootstrap,
    ListenIps := listen, ProtocolID := "/chat/1.1.0".toList, KeyFile := [] }

/-- The entries of `BootstrapPeers` whose address ends up in the result: not
empty, parsed by the codec, and with a string form outside `exclude`. -/
def keptEntry {α ε : Type} (codec : AddrCodec α ε) (exclude : List GoString)
    (addrString : GoString) : Bool :=
  if addrString = [] then false
  else
    match codec.NewMultiaddr (bootstrapAddrText addrString) with
    | .error _ => false
    | .ok addr => !excludedLoop exclude (codec.AddrString addr)

/-! ## chatnode.go: the refresh loop of `Run` -/

/-- The variables of `Run` that the refresh loop reads and writes, with two
counters: the calls of `RefreshRoutingTable` made and the seconds slept. -/
structure RefreshState (ε : Type) where
  refreshed : Bool
  err : Option ε
  attempts : Nat
  slept : Nat
  deriving DecidableEq, Repr

/-- The loop `for !refreshed { ... }` of `Run`. `refresh` is
`kademliaDHT.RefreshRoutingTable()` followed by the receive `err = <-ch`, on a
directory in state `d`. The loop has no bound of its own; `none` is returned
when `fuel` iterations did not end it. -/
def refreshLoop {ε D : Type} (refresh : D → Option ε × D) :
    Nat → RefreshState ε → D → Option (RefreshState ε × D)
  | 0, st, d => if !st.refreshed then none else some (st, d)
  | fuel + 1, st, d =>
    if !st.refreshed then
      match refresh d with
      | (some e, d) =>
        refreshLoop refresh fuel
          { st with err := some e, attempts := st.attempts + 1, slept := st.slept + 10 } d
      | (none, d) =>
        refreshLoop refresh fuel
          { st with err := none, attempts := st.attempts + 1, refreshed := true } d
    else some (st, d)

/-- The refresh step of `Run`: `refreshed := true`, the loop, and
`time.Sleep(1 * time.Second)`. `err` is `nil` on entry, `Bootstrap` having
returned without error. -/
def refreshStep {ε D : Type} (refresh : D → Option ε × D) (fuel : Nat) (d : D) :
    Option (RefreshState ε × D) :=
  (refreshLoop refresh fuel { refreshed := true, err := none, attempts := 0, slept := 0 } d).map
    (fun r => ({ r.1 with slept := r.1.slept + 1 }, r.2))

/-- A directory stub whose state is the number of calls made: the first `n`
calls fail with `e`, every later call succeeds. -/
def failingFirst {ε : Type} (e : ε) (n : Nat) (calls : Nat) : Option ε × Nat :=
  (if calls < n then some e else none, calls + 1)

/-- A directory stub whose every call fails with `e`. -/
def alwaysFailing {ε : Type} (e : ε) (calls : Nat) : Option ε × Nat :=
  (some e, calls + 1)

/-! ## chatnode.go: the discovery loop of `Run` -/

/-- Go `peer.AddrInfo`. -/
structure AddrInfo (P A : Type) where
  ID : P
  Addrs : List A

/-- What the discovery loop does to the outside: a call of `host.NewStream` for
a peer, and the two goroutines started on the stream of a peer. -/
inductive Event (P S : Type) where
  | NewStream (id : P)
  | goWriteData (id : P) (rw : S)
  | goReadData (id : P) (rw : S)
  deriving DecidableEq, Repr

/-- The peer an event is about. -/
def Event.peer {P S : Type} : Event P S → P
  | .NewStream id => id
  | .goWriteData id _ => id
  | .goReadData id _ => id

/-- The loop `for peer := range peerChan` of `Run` on the peers received from
the channel. `NewStream` is `host.NewStream(ctx, peer.ID, protocolID)` on a
network in state `h`; `log` holds the events so far. -/
def discoveryLoop {P A S ε H : Type} [DecidableEq P] (hostID : P)
    (NewStream : H → P → Except ε S × H) :
    List (AddrInfo P A) → H → List (Event P S) → List (Event P S) × H
  | [], h, log => (log, h)
  | peer :: rest, h, log =>
    if peer.ID = hostID then discoveryLoop hostID NewStream rest h log
    else
      match NewStream h peer.ID with
      | (.error _, h) =>
        discoveryLoop hostID NewStream rest h (log ++ [Event.NewStream peer.ID])
      | (.ok stream, h) =>
        discoveryLoop hostID NewStream rest h
          (log ++ [Event.NewStream peer.ID, Event.goWriteData peer.ID stream,
            Event.goReadData peer.ID stream])

/-- The outcomes of calling `NewStream` for the given peers one after the other. -/
def attemptResults {P S ε H : Type} (NewStream : H → P → Except ε S × H) :
    List P → H → List (P × Except ε S)
  | [], _ => []
  | id :: rest, h => (id, (NewStream h id).1) :: attemptResults NewStream rest (NewStream h id).2

/-- The peer and stream of a successful attempt. -/
def sessionOf {P S ε : Type} : P × Except ε S → Option (P × S)
  | (id, .ok stream) => some (id, stream)
  | (_, .error _) => none

/-- The peer of a `NewStream` event. -/
def Event.attempt {P S : Type} : Event P S → Option P
  | .NewStream id => some id
  | _ => none

/-- The peer and stream of a `go writeData(rw)` event. -/
def Event.writer {P S : Type} : Event P S → Option (P × S)
  | .goWriteData id rw => some (id, rw)
  | _ => none

/-- The peer and stream of a `go readData(rw)` event. -/
def Event.reader {P S : Type} : Event P S → Option (P × S)
  | .goReadData id rw => some (id, rw)
  | _ => none

/-- A network stub for concrete runs: its state is the number of calls made, the
call for peer `id` fails when `id` is odd and otherwise opens stream
`100 * calls + id`. -/
def stubNewStream (calls : Nat) (id : Nat) : Except Unit Nat × Nat :=
  (if id % 2 = 1 then .error () else .ok (100 * calls + id), calls + 1)

/-! ## chatnode.go: `readData` and the line encoding of `writeData` -/

/-- The error a read ends with when the data of a stream runs out. -/
inductive ReadError where
  | EOF
  | connReset
  deriving DecidableEq, Repr

/-- Go `rw.ReadString(delim)` on the pending bytes of a stream that ends with
`endErr`: the bytes up to and including the first `delim` and no error, or, when
there is no `delim`, all the bytes and the error. The third component is what is
left of the stream. -/
def ReadString (endErr : ReadError) (delim : Char) :
    GoString → GoString × Option ReadError × GoString
  | [] => ([], some endErr, [])
  | c :: s =>
    if c = delim then ([c], none, s)
    else
      match ReadString endErr delim s with
      | (str, err, rest) => (c :: str, err, rest)

/-- How a goroutine ends. -/
inductive Exit where
  | returned
  | panicked (err : ReadError)
  deriving DecidableEq, Repr

/-- Go `readData(rw)` on a stream holding `stream` and then ending with
`endErr`. `shown` lists the `str` of every `fmt.Printf("\x1b[32m%s\x1b[0m> ", str)`
made so far. `none` is returned when `fuel` iterations did not end the loop. -/
def readData (endErr : ReadError) : Nat → GoString → List GoString →
    Option (List GoString × Exit)
  | 0, _, _ => none
  | fuel + 1, stream, shown =>
    match ReadString endErr '\n' stream with
    | (_, some err, _) => some (shown, Exit.panicked err)
    | (str, none, rest) =>
      if str = [] then some (shown, Exit.returned)
      else if str ≠ ['\n'] then readData endErr fuel rest (shown ++ [str])
      else readData endErr fuel rest shown

/-- The text `writeData` hands to `rw.WriteString`: Go
`fmt.Sprintf("%s\n", sendData)`. -/
def sprintfLine (sendData : GoString) : GoString :=
  sendData ++ ['\n']

/-- A stream made of newline-terminated lines. -/
def linesStream (lines : List GoString) : GoString :=
  (lines.map sprintfLine).flatten

/-! ## chatnode.go: `writeData` -/

/-- The error of a write of the `bufio.Writer`: `io.ErrShortWrite`, or the error
of the stream. -/
inductive WriteError (ε : Type) where
  | shortWrite
  | stream (err : ε)
  deriving DecidableEq, Repr

/-- The write half of the `bufio.ReadWriter` of a session, a Go `bufio.Writer`:
the length `size` of its buffer (`len(b.buf)`), the bytes buffered
(`b.buf[0:b.n]`), its sticky error (`b.err`), and the bytes the stream has taken
so far. -/
structure BufWriter (ε : Type) where
  size : Nat
  buf : GoString
  err : Option (WriteError ε)
  wire : GoString
  deriving DecidableEq, Repr

/-- Go `bufio.NewWriter(stream)`: a buffer of 4096 bytes. -/
def NewWriter (ε : Type) (wire : GoString) : BufWriter ε :=
  { size := 4096, buf := [], err := none, wire := wire }

/-- Go `b.Available()`. -/
def BufWriter.Available {ε : Type} (b : BufWriter ε) : Nat :=
  b.size - b.buf.length

/-- Go `b.Flush()`. `streamWrite wire p` is the result `(n, err)` of
`stream.Write(p)` on a stream that has taken `wire` so far. -/
def BufWriter.Flush {ε : Type} (streamWrite : GoString → GoString → Nat × Option ε)
    (b : BufWriter ε) : Option (WriteError ε) × BufWriter ε :=
  match b.err with
  | some e => (some e, b)
  | none =>
    if b.buf.length = 0 then (none, b)
    else
      let n := min (streamWrite b.wire b.buf).1 b.buf.length
      let err : Option (WriteError ε) :=
        match (streamWrite b.wire b.buf).2 with
        | some e => some (WriteError.stream e)
        | none => if n < b.buf.length then some WriteError.shortWrite else none
      match err with
      | some e =>
        (some e, { b with buf := b.buf.drop n, err := some e, wire := b.wire ++ b.buf.take n })
      | none => (none, { b with buf := [], wire := b.wire ++ b.buf })

/-- The loop `for len(s) > b.Available() && b.err == nil` of Go
`b.WriteString(s)`, for a stream that is no `io.StringWriter`: the buffer is
filled from `s` and flushed. `none` is returned when `fuel` iterations did not
end the loop. -/
def BufWriter.WriteString.loop {ε : Type} (streamWrite : GoString → GoString → Nat × Option ε) :
    Nat → BufWriter ε → GoString → Option (BufWriter ε × GoString)
  | 0, b, s => if s.length > b.Available ∧ b.err.isNone then none else some (b, s)
  | fuel + 1, b, s =>
    if s.length > b.Available ∧ b.err.isNone then
      let n := b.Available
      let b := { b with buf := b.buf ++ s.take n }
      BufWriter.WriteString.loop streamWrite fuel (b.Flush streamWrite).2 (s.drop n)
    else some (b, s)

/-- Go `b.WriteString(s)`: the error returned and the writer afterwards. The loop
ends within `len(s) + 1` iterations unless the buffer has length 0. -/
def BufWriter.WriteString {ε : Type} (streamWrite : GoString → GoString → Nat × Option ε)
    (b : BufWriter ε) (s : GoString) : Option (Option (WriteError ε) × BufWriter ε) :=
  match BufWriter.WriteString.loop streamWrite (s.length + 1) b s with
  | none => none
  | some (b, s) =>
    match b.err with
    | some e => some (some e, b)
    | none => some (none, { b with buf := b.buf ++ s })

/-- What `writeData` does, in order: a line read from standard input, a call of
`rw.WriteString` that returned without error, and a call of `rw.Flush` that
returned without error. -/
inductive WriterEvent where
  | readLine (sendData : GoString)
  | writeString (s : GoString)
  | flush
  deriving DecidableEq, Repr

/-- How `writeData` ends: it panics with the error of reading standard input,
of `rw.WriteString` or of `rw.Flush`. -/
inductive WriterExit (ε : Type) where
  | stdinPanic (err : ReadError)
  | writePanic (err : WriteError ε)
  | flushPanic (err : WriteError ε)
  deriving DecidableEq, Repr

/-- Go `writeData(rw)` on a standard input holding `stdin` and then ending with
`stdinErr`. `log` holds the events so far; the prompt `fmt.Print("> ")` is not
among them. `none` is returned when `fuel` iterations did not end the loop. -/
def writeData {ε : Type} (streamWrite : GoString → GoString → Nat × Option ε)
    (stdinErr : ReadError) :
    Nat → GoString → BufWriter ε → List WriterEvent →
      Option (List WriterEvent × BufWriter ε × WriterExit ε)
  | 0, _, _, _ => none
  | fuel + 1, stdin, rw, log =>
    match ReadString stdinErr '\n' stdin with
    | (_, some err, _) => some (log, rw, WriterExit.stdinPanic err)
    | (sendData, none, rest) =>
      match rw.WriteString streamWrite (sprintfLine sendData) with
      | none => none
      | some (some err, rw) =>
        some (log ++ [WriterEvent.readLine sendData], rw, WriterExit.writePanic err)
      | some (none, rw) =>
        match rw.Flush streamWrite with
        | (some err, rw) =>
          some (log ++ [WriterEvent.readLine sendData,
            WriterEvent.writeString (sprintfLine sendData)], rw, WriterExit.flushPanic err)
        | (none, rw) =>
          writeData streamWrite stdinErr fuel rest rw
            (log ++ [WriterEvent.readLine sendData,
              WriterEvent.writeString (sprintfLine sendData), WriterEvent.flush])

/-- A stream that takes every write whole. -/
def acceptingStream (_wire : GoString) (p : GoString) : Nat × Option Unit :=
  (p.length, none)

/-- A stream that fails every write and takes nothing. -/
def failingStream (_wire : GoString) (_p : GoString) : Nat × Option Unit :=
  (0, some ())

/-- The events of one iteration of `writeData` on the input line `sendData`. -/
def lineEvents (sendData : GoString) : List WriterEvent :=
  [WriterEvent.readLine sendData, WriterEvent.writeString (sprintfLine sendData),
    WriterEvent.flush]

/-! ## cmd/generateKey.go -/

/-- Go `type keytype string`. -/
abbrev keytype := GoString

/-- Go `type ecdsaCurve string`. -/
abbrev ecdsaCurve := GoString

/-- Go constant `ed25519`. -/
def ed25519 : keytype := "ed25519".toList
/-- Go constant `ecdsa`. -/
def ecdsa : keytype := "ecdsa".toList
/-- Go constant `rsa`. -/
def rsa : keytype := "rsa".toList
/-- Go constant `secp256k1`. -/
def secp256k1 : keytype := "secp256k1".toList
/-- Go constant `invalidKeytype`. -/
def invalidKeytype : keytype := "invalid".toList

/-- Go constant `p224`. -/
def p224 : ecdsaCurve := "p224".toList
/-- Go constant `p256`. -/
def p256 : ecdsaCurve := "p256".toList
/-- Go constant `p384`. -/
def p384 : ecdsaCurve := "p384".toList
/-- Go constant `p521`. -/
def p521 : ecdsaCurve := "p521".toList
/-- Go constant `invalidEcdsaCurve`. -/
def invalidEcdsaCurve : ecdsaCurve := "invalid".toList

/-- Go `parseKeytype(val)`; an error is its message. -/
def parseKeytype (val : GoString) : keytype × Option GoString :=
  if val = "ed25519".toList then (ed25519, none)
  else if val = "ecdsa".toList then (ecdsa, none)
  else if val = "rsa".toList then (rsa, none)
  else if val = "secp256k1".toList then (secp256k1, none)
  else (invalidKeytype, some ("invalid keytype ".toList ++ val))

/-- Go `parseEcdsaCurve(val)`; an error is its message. -/
def parseEcdsaCurve (val : GoString) : ecdsaCurve × Option GoString :=
  if val = "p224".toList then (p224, none)
  else if val = "p256".toList then (p256, none)
  else if val = "p384".toList then (p384, none)
  else if val = "p521".toList then (p521, none)
  else (invalidEcdsaCurve, some ("invalid ecdsa curve ".toList ++ val))

/-- Go `keygenerator`. -/
structure keygenerator where
  keyType : keytype
  outPath : GoString
  bits : Int
  curve : ecdsaCurve
  deriving DecidableEq, Repr

/-- The values of the flags `type`, `bits`, `curve` and `out` of the command.
`init` defines the four flags with these types, so that the four `Get` calls of
`newKeyGenerator` return them without error. `bits` is an `int32`. -/
structure KeyFlags where
  ktParam : GoString
  bits : Int
  curveParam : GoString
  outpath : GoString
  deriving DecidableEq, Repr

/-- Go `newKeyGenerator(cmd)`: the pair `(generator, err)`, `none` for `nil`. -/
def newKeyGenerator (flags : KeyFlags) : Option keygenerator × Option GoString :=
  let outpath := if flags.outpath = [] then "private.key".toList else flags.outpath
  match parseKeytype flags.ktParam with
  | (_, some err) => (none, some err)
  | (kt, none) =>
    match (if kt = ecdsa then parseEcdsaCurve flags.curveParam else ([], none)) with
    | (_, some err) => (none, some err)
    | (curve, none) =>
      if kt = rsa then
        let bits := if flags.bits = 0 then 2048 else flags.bits
        if ¬ (bits = 1024 ∨ bits = 2048 ∨ bits = 4096) then
          (none, some ("invalid bit size ".toList ++ fmtInt bits ++ " for rsa key".toList))
        else
          (some { keyType := kt, outPath := outpath, bits := bits, curve := curve }, none)
      else
        (some { keyType := kt, outPath := outpath, bits := flags.bits, curve := curve }, none)

/-! ## chatconfig.go: decoding a configuration document

`json.Unmarshal` is the decoder of the Go standard library. It is given here on
a document that is already parsed (`JValue`), for the target type
`Configuration`: an object member is matched to the field whose tag is equal to
its key or, failing that, equal to it after the decoder's case folding (`fold`);
a member that matches no field is skipped; `null` leaves a string or an integer
unchanged and makes a slice `nil`; a value of another kind is a type error, the
first of which is returned after the whole document has been read. -/

deriving instance DecidableEq, Repr for Configuration

/-- A JSON number: an integer literal, or a literal with a fraction or exponent. -/
inductive JNumber where
  | integer (i : Int)
  | other (lit : GoString)

/-- A parsed JSON document. -/
inductive JValue where
  | null
  | bool (b : Bool)
  | number (n : JNumber)
  | str (s : GoString)
  | array (items : List JValue)
  | object (members : List (GoString × JValue))

/-- The fields of `Configuration`, in declaration order. -/
inductive Field where
  | Port
  | RendezvousString
  | BootstrapPeers
  | ListenIps
  | ProtocolID
  | KeyFile
  deriving DecidableEq, Repr

/-- The `json:"..."` tag of a field of `Configuration`. -/
def Field.tag : Field → GoString
  | .Port => "port".toList
  | .RendezvousString => "redezvous_string".toList
  | .BootstrapPeers => "bootstrap_peers".toList
  | .ListenIps => "listen_ips".toList
  | .ProtocolID => "protocol_id".toList
  | .KeyFile => "key_file".toList

/-- The fields of `Configuration`. -/
def Field.all : List Field :=
  [.Port, .RendezvousString, .BootstrapPeers, .ListenIps, .ProtocolID, .KeyFile]

/-- The Go value of a field. -/
inductive FieldValue where
  | int (i : Int)
  | string (s : GoString)
  | strings (l : List GoString)
  deriving DecidableEq, Repr

/-- The value of a field in a configuration. -/
def Field.get : Field → Configuration → FieldValue
  | .Port, cfg => .int cfg.Port
  | .RendezvousString, cfg => .string cfg.RendezvousString
  | .BootstrapPeers, cfg => .strings cfg.BootstrapPeers
  | .ListenIps, cfg => .strings cfg.ListenIps
  | .ProtocolID, cfg => .string cfg.ProtocolID
  | .KeyFile, cfg => .string cfg.KeyFile

/-- Go `var cfg Configuration`: every field at its zero value. -/
def Configuration.zero : Configuration :=
  { Port := 0, RendezvousString := [], BootstrapPeers := [], ListenIps := [],
    ProtocolID := [], KeyFile := [] }

/-- The field a key is matched to: the field with that tag, or else the first
field whose tag is equal to the key after folding. -/
def findField (fold : GoString → GoString) (key : GoString) : Option Field :=
  match Field.all.find? (fun f => f.tag = key) with
  | some f => some f
  | none => Field.all.find? (fun f => fold f.tag = fold key)

/-- The decoder's `UnmarshalTypeError`, reduced to the tag of the field the
value was meant for (empty at the top level). -/
structure UnmarshalTypeError where
  Field : GoString
  deriving DecidableEq, Repr

/-- Decoding into an `int`: an integer literal within the 64-bit range. -/
def decodeInt (old : Int) : JValue → Int × Bool
  | .null => (old, true)
  | .number (.integer i) => if -2 ^ 63 ≤ i ∧ i < 2 ^ 63 then (i, true) else (old, false)
  | _ => (old, false)

/-- Decoding into a `string`. -/
def decodeString (old : GoString) : JValue → GoString × Bool
  | .null => (old, true)
  | .str s => (s, true)
  | _ => (old, false)

/-- Decoding into a `[]string`: each element is decoded into a fresh string. -/
def decodeStrings (old : List GoString) : JValue → List GoString × Bool
  | .null => ([], true)
  | .array items =>
    (items.map (fun it => (decodeString [] it).1), items.all (fun it => (decodeString [] it).2))
  | _ => (old, false)

/-- Decoding the value of a member into the field it is matched to. The second
component is the type error, if there is one. -/
def setField (cfg : Configuration) (f : Field) (v : JValue) :
    Configuration × Option UnmarshalTypeError :=
  let err (ok : Bool) : Option UnmarshalTypeError :=
    if ok then none else some { Field := f.tag }
  match f with
  | .Port => ({ cfg with Port := (decodeInt cfg.Port v).1 }, err (decodeInt cfg.Port v).2)
  | .RendezvousString =>
    ({ cfg with RendezvousString := (decodeString cfg.RendezvousString v).1 },
      err (decodeString cfg.RendezvousString v).2)
  | .BootstrapPeers =>
    ({ cfg with BootstrapPeers := (decodeStrings cfg.BootstrapPeers v).1 },
      err (decodeStrings cfg.BootstrapPeers v).2)
  | .ListenIps =>
    ({ cfg with ListenIps := (decodeStrings cfg.ListenIps v).1 },
      err (decodeStrings cfg.ListenIps v).2)
  | .ProtocolID =>
    ({ cfg with ProtocolID := (decodeString cfg.ProtocolID v).1 },
      err (decodeString cfg.ProtocolID v).2)
  | .KeyFile =>
    ({ cfg with KeyFile := (decodeString cfg.KeyFile v).1 },
      err (decodeString cfg.KeyFile v).2)

/-- Decoding the members of an object one after the other; the first type error
is kept. -/
def unmarshalMembers (fold : GoString → GoString) :
    List (GoString × JValue) → Configuration × Option UnmarshalTypeError →
      Configuration × Option UnmarshalTypeError
  | [], st => st
  | (key, v) :: rest, (cfg, err) =>
    match findField fold key with
    | none => unmarshalMembers fold rest (cfg, err)
    | some f =>
      unmarshalMembers fold rest ((setField cfg f v).1, err.orElse (fun _ => (setField cfg f v).2))

/-- Go `json.Unmarshal(doc, &cfg)` for a document that parses to `doc`. -/
def Unmarshal (fold : GoString → GoString) (doc : JValue) (cfg : Configuration) :
    Configuration × Option UnmarshalTypeError :=
  match doc with
  | .object members => unmarshalMembers fold members (cfg, none)
  | .null => (cfg, none)
  | _ => (cfg, some { Field := [] })

/-- The errors of `LoadChatConfig`. -/
inductive LoadError where
  | readFile (msg : GoString)
  | invalidJson
  | typeError (err : UnmarshalTypeError)
  deriving DecidableEq, Repr

/-- Go `LoadChatConfig(filename)`. `file` is what `os.ReadFile(filename)` gives:
an error, or bytes that the decoder does (`some`) or does not (`none`) accept as
a JSON document. -/
def LoadChatConfig (fold : GoString → GoString) (file : Except GoString (Option JValue)) :
    Option Configuration × Option LoadError :=
  match file with
  | .error msg => (none, some (LoadError.readFile msg))
  | .ok none => (none, some LoadError.invalidJson)
  | .ok (some doc) =>
    match Unmarshal fold doc Configuration.zero with
    | (cfg, none) => (some cfg, none)
    | (_, some err) => (none, some (LoadError.typeError err))

/-- Folding of the ASCII letters to lower case. -/
def asciiFold (s : GoString) : GoString :=
  s.map (fun c => if 'A' ≤ c ∧ c ≤ 'Z' then Char.ofNat (c.toNat + 32) else c)

/-- The members of the document of `TestUnmarshalConfig`. -/
def testMembers : List (GoString × JValue) :=
  [("rendezvous_string".toList, .str []),
    ("bootstrap_peers".toList, .array [.str []]),
    ("listen_addresses".toList, .array [.str []]),
    ("protocol_id".toList, .str [])]

/-- The document of `TestUnmarshalConfig`. -/
def testJson : JValue :=
  .object testMembers

/-- A member value has the type of a field: an integer in the range of `int` for
`Port`, a string for a string field, an array of strings for a slice field. -/
def hasFieldType : Field → JValue → Bool
  | .Port, .number (.integer i) => decide (-2 ^ 63 ≤ i ∧ i < 2 ^ 63)
  | .Port, _ => false
  | .BootstrapPeers, .array items => items.all (fun it => it matches .str _)
  | .BootstrapPeers, _ => false
  | .ListenIps, .array items => items.all (fun it => it matches .str _)
  | .ListenIps, _ => false
  | _, .str _ => true
  | _, _ => false

/-- Every member that is matched to a field carries a value of that field's type. -/
def wellTyped (fold : GoString → GoString) (members : List (GoString × JValue)) : Bool :=
  members.all (fun m =>
    match findField fold m.1 with
    | some f => hasFieldType f m.2
    | none => true)

/-- No member is matched to the field `f`. -/
def unmatched (fold : GoString → GoString) (members : List (GoString × JValue)) (f : Field) :
    Bool :=
  members.all (fun m => decide (findField fold m.1 ≠ some f))

/-! ## A reference codec for `/unix/<path>` addresses

In go-multiaddr `unix` is a path protocol: everything after the protocol name,
slashes included, is the value of the component, and the string form is the
protocol name followed by that value. `unixCodec` is that protocol alone; an
address is its path. -/

/-- `NewMultiaddr` of the unix reference codec. -/
def unixNewMultiaddr (s : GoString) : Except RefError GoString :=
  let s := trimRightSlash s
  match splitOnChar '/' s with
  | [] :: sp =>
    match sp with
    | [] => .error RefError.emptyMultiaddr
    | name :: rest =>
      if name = "unix".toList then
        if rest.length < 1 then .error RefError.invalidComponent
        else .ok ('/' :: List.intercalate ['/'] rest)
      else .error RefError.invalidComponent
  | _ => .error RefError.mustBeginWithSlash

/-- `String` of the unix reference codec. -/
def unixAddrString (path : GoString) : GoString :=
  let a := match path with
    | '/' :: a => a
    | a => a
  if a.length > 0 then "/unix".toList ++ '/' :: a else "/unix".toList

/-- The unix reference codec. -/
def unixCodec : AddrCodec GoString RefError where
  NewMultiaddr := unixNewMultiaddr
  AddrString := unixAddrString

/-! ## Lemmas on the library functions -/

theorem stringsReplace1_slash (s : GoString) :
    stringsReplace1 "/".toList s "//".toList = s ++ "/".toList := by
  simp [stringsReplace1, List.isPrefixOf]

theorem bootstrapAddrText_eq (s : GoString) :
    bootstrapAddrText s = stringsReplace1 "//".toList "/".toList s ++ "/".toList := by
  exact stringsReplace1_slash _

theorem excludedLoop_eq_true {exclude : List GoString} {t : GoString} :
    excludedLoop exclude t = true ↔ t ∈ exclude := by
  induction exclude with
  | nil => simp [excludedLoop]
  | cons e es ih =>
    by_cases h : e = t
    · simp [excludedLoop, h]
    · have h2 : ¬ t = e := fun h3 => h h3.symm
      simp [excludedLoop, h, h2, ih]

theorem excludedLoop_eq_false {exclude : List GoString} {t : GoString} :
    excludedLoop exclude t = false ↔ t ∉ exclude := by
  rw [← excludedLoop_eq_true]; simp

theorem forall₂_of_mem_left {β γ : Type} {R : β → γ → Prop} :
    ∀ {l₁ : List β} {l₂ : List γ}, List.Forall₂ R l₁ l₂ → ∀ {x : β}, x ∈ l₁ → ∃ y, R x y := by
  intro l₁ l₂ h
  induction h with
  | nil => intro x hx; simp at hx
  | cons hr _ ih =>
    intro x hx
    rcases List.mem_cons.1 hx with rfl | hx
    · exact ⟨_, hr⟩
    · exact ih hx

/-! ## Lemmas on `GetListenAddresses` -/

theorem GetListenAddresses.loop_spec {α ε : Type} (codec : AddrCodec α ε) (port : Int) :
    ∀ (ips : List GoString) (acc : List α),
      (∃ ip ∈ ips, ∃ e, codec.NewMultiaddr (sprintfIp4Tcp ip port) = .error e ∧
          GetListenAddresses.loop codec port ips acc = (none, some e)) ∨
      (∃ addrs, GetListenAddresses.loop codec port ips acc = (some (acc ++ addrs), none) ∧
          List.Forall₂ (fun ip a => codec.NewMultiaddr (sprintfIp4Tcp ip port) = .ok a)
            ips addrs) := by
  intro ips
  induction ips with
  | nil =>
    intro acc
    exact Or.inr ⟨[], by simp [GetListenAddresses.loop], List.Forall₂.nil⟩
  | cons ip rest ih =>
    intro acc
    cases hp : codec.NewMultiaddr (sprintfIp4Tcp ip port) with
    | error e =>
      exact Or.inl ⟨ip, List.mem_cons_self _ _, e, hp, by simp [GetListenAddresses.loop, hp]⟩
    | ok a =>
      rcases ih (acc ++ [a]) with ⟨ip2, hmem, e, he, hres⟩ | ⟨addrs, hres, hall⟩
      · exact Or.inl ⟨ip2, List.mem_cons_of_mem _ hmem, e, he, by
          simp [GetListenAddresses.loop, hp, hres]⟩
      · exact Or.inr ⟨a :: addrs, by simp [GetListenAddresses.loop, hp, hres],
          List.Forall₂.cons hp hall⟩

theorem listenIpList_ne_nil (cfg : Configuration) : listenIpList cfg ≠ [] := by
  unfold listenIpList
  cases h : cfg.ListenIps with
  | nil => simp
  | cons a l => simp

/-! ## Lemmas on `GetBootstrapPeers` -/

theorem GetBootstrapPeers.loop_ok {α ε : Type} (codec : AddrCodec α ε)
    (exclude : List GoString) :
    ∀ (entries : List GoString) (acc : List α) (r : Option (List α)),
      (GetBootstrapPeers.loop codec exclude entries acc).1 = r →
      ∀ peers, r = some peers →
        (GetBootstrapPeers.loop codec exclude entries acc).2 = none ∧
        ∃ new, peers = acc ++ new ∧
          (∀ a ∈ new, codec.AddrString a ∉ exclude) ∧
          List.Forall₂ (fun s a => codec.NewMultiaddr (bootstrapAddrText s) = .ok a)
            (entries.filter (keptEntry codec exclude)) new := by
  intro entries
  induction entries with
  | nil =>
    intro acc r hr peers hp
    subst hp
    simp only [GetBootstrapPeers.loop, Option.some.injEq] at hr
    exact ⟨rfl, [], by simp [hr], by simp, by simp⟩
  | cons s rest ih =>
    intro acc r hr peers hp
    subst hp
    by_cases hs : s = []
    · have hk : keptEntry codec exclude s = false := by simp [keptEntry, hs]
      simp only [GetBootstrapPeers.loop, hs, if_true] at hr ⊢
      obtain ⟨h2, new, hnew, hex, hall⟩ := ih acc _ hr peers rfl
      refine ⟨h2, new, hnew, hex, ?_⟩
      rw [List.filter_cons_of_neg (by simp [hs ▸ hk])]
      exact hall
    · cases hparse : codec.NewMultiaddr (bootstrapAddrText s) with
      | error e => simp [GetBootstrapPeers.loop, hs, hparse] at hr
      | ok a =>
        cases hx : excludedLoop exclude (codec.AddrString a) with
        | true =>
          have hk : keptEntry codec exclude s = false := by simp [keptEntry, hs, hparse, hx]
          simp only [GetBootstrapPeers.loop, hs, if_false, hparse, hx] at hr ⊢
          obtain ⟨h2, new, hnew, hex, hall⟩ := ih acc _ hr peers rfl
          refine ⟨h2, new, hnew, hex, ?_⟩
          rw [List.filter_cons_of_neg (by simp [hk])]
          exact hall
        | false =>
          have hk : keptEntry codec exclude s = true := by simp [keptEntry, hs, hparse, hx]
          simp only [GetBootstrapPeers.loop, hs, if_false, hparse, hx] at hr ⊢
          obtain ⟨h2, new, hnew, hex, hall⟩ := ih (acc ++ [a]) _ hr peers rfl
          refine ⟨h2, a :: new, by simp [hnew], ?_, ?_⟩
          · intro b hb
            rcases List.mem_cons.1 hb with rfl | hb
            · exact excludedLoop_eq_false.1 hx
            · exact hex b hb
          · rw [List.filter_cons_of_pos hk]
            exact List.Forall₂.cons hparse hall

theorem GetBootstrapPeers.loop_error {α ε : Type} (codec : AddrCodec α ε)
    (exclude : List GoString) :
    ∀ (entries : List GoString) (acc : List α),
      (∃ s ∈ entries, s ≠ [] ∧ ∃ e, codec.NewMultiaddr (bootstrapAddrText s) = .error e) →
      ∃ e, GetBootstrapPeers.loop codec exclude entries acc = (none, some e) := by
  intro entries
  induction entries with
  | nil => intro acc h; simp at h
  | cons s rest ih =>
    intro acc ⟨t, ht, hne, e, he⟩
    by_cases hs : s = []
    · have ht2 : t ∈ rest := by
        rcases List.mem_cons.1 ht with h | h
        · exact absurd (h ▸ hs) hne
        · exact h
      simpa [GetBootstrapPeers.loop, hs] using ih acc ⟨t, ht2, hne, e, he⟩
    · cases hparse : codec.NewMultiaddr (bootstrapAddrText s) with
      | error e2 => exact ⟨e2, by simp [GetBootstrapPeers.loop, hs, hparse]⟩
      | ok a =>
        have ht2 : t ∈ rest := by
          rcases List.mem_cons.1 ht with h | h
          · rw [h, hparse] at he; cases he
          · exact h
        cases hx : excludedLoop exclude (codec.AddrString a) with
        | true =>
          simpa [GetBootstrapPeers.loop, hs, hparse, hx] using ih acc ⟨t, ht2, hne, e, he⟩
        | false =>
          simpa [GetBootstrapPeers.loop, hs, hparse, hx] using
            ih (acc ++ [a]) ⟨t, ht2, hne, e, he⟩

theorem GetBootstrapPeers.loop_again {α ε : Type} (codec : AddrCodec α ε)
    (exclude : List GoString) :
    ∀ (peers acc : List α),
      (∀ a ∈ peers, codec.AddrString a ≠ [] ∧ codec.AddrString a ∉ exclude ∧
        codec.NewMultiaddr (bootstrapAddrText (codec.AddrString a)) = .ok a) →
      GetBootstrapPeers.loop codec exclude (peers.map codec.AddrString) acc
        = (some (acc ++ peers), none) := by
  intro peers
  induction peers with
  | nil => intro acc _; simp [GetBootstrapPeers.loop]
  | cons a rest ih =>
    intro acc h
    obtain ⟨hne, hex, hp⟩ := h a (List.mem_cons_self _ _)
    have hx := excludedLoop_eq_false.2 hex
    have hrest := ih (acc ++ [a]) (fun b hb => h b (List.mem_cons_of_mem _ hb))
    simp [GetBootstrapPeers.loop, hne, hp, hx, hrest]

/-! ## Claims on address resolution -/

/-- C1 (as amended): for every configuration whose `ListenIps` is empty,
`GetListenAddresses` parses the single text `/ip4/0.0.0.0/tcp/<Port>`; when the
codec accepts it the result is exactly that one address and no error, and when
the codec rejects it the result is the `nil` list and the codec's error. -/
theorem GetListenAddresses_default {α ε : Type} (codec : AddrCodec α ε)
    (cfg : Configuration) (h : cfg.ListenIps = []) :
    GetListenAddresses codec cfg =
      match codec.NewMultiaddr (sprintfIp4Tcp "0.0.0.0".toList cfg.Port) with
      | .ok addr => (some [addr], none)
      | .error err => (none, some err) := by
  unfold GetListenAddresses listenIpList
  rw [h]
  show GetListenAddresses.loop codec cfg.Port ["0.0.0.0".toList] [] = _
  simp only [GetListenAddresses.loop]
  generalize codec.NewMultiaddr (sprintfIp4Tcp "0.0.0.0".toList cfg.Port) = r
  cases r <;> simp [GetListenAddresses.loop]

/-- C1, witness: with no listen interface and port 4001 the reference codec gives
the one address `/ip4/0.0.0.0/tcp/4001`. -/
theorem GetListenAddresses_default_witness :
    (mkConfig 4001 [] []).ListenIps = [] ∧
    GetListenAddresses refCodec (mkConfig 4001 [] [])
      = (some [[Component.ip4 0 0 0 0, Component.tcp 4001]], none) :=
  ⟨rfl, (GetListenAddresses_default refCodec (mkConfig 4001 [] []) rfl).trans (by decide)⟩

/-- C1, counterexample: with no listen interface and port 70000 the text
`/ip4/0.0.0.0/tcp/70000` is not an address, and `GetListenAddresses` returns the
`nil` list and an error instead of one address. -/
theorem GetListenAddresses_default_port_70000 :
    (mkConfig 70000 [] []).ListenIps = [] ∧
    sprintfIp4Tcp "0.0.0.0".toList 70000 = "/ip4/0.0.0.0/tcp/70000".toList ∧
    GetListenAddresses refCodec (mkConfig 70000 [] [])
      = (none, some RefError.invalidComponent) := by
  decide

/-- C5 (as amended): for every configuration, `GetListenAddresses` fails exactly
when the codec rejects the text `/ip4/<ip>/tcp/<Port>` of some interface in
effect, and it either returns the `nil` list and the error of such an interface,
or returns no error and a non-empty list with one address per interface in
effect, in order, each the parse of its interface's text. The interfaces in
effect are `ListenIps`, or the single default `0.0.0.0` when `ListenIps` is
empty. -/
theorem GetListenAddresses_all_or_nothing {α ε : Type} (codec : AddrCodec α ε)
    (cfg : Configuration) :
    listenIpList cfg = (if cfg.ListenIps = [] then ["0.0.0.0".toList] else cfg.ListenIps) ∧
    ((∃ e, GetListenAddresses codec cfg = (none, some e)) ↔
      ∃ ip ∈ listenIpList cfg, ∃ e,
        codec.NewMultiaddr (sprintfIp4Tcp ip cfg.Port) = .error e) ∧
    ((∃ ip ∈ listenIpList cfg, ∃ e,
        codec.NewMultiaddr (sprintfIp4Tcp ip cfg.Port) = .error e ∧
        GetListenAddresses codec cfg = (none, some e)) ∨
     (∃ addrs, GetListenAddresses codec cfg = (some addrs, none) ∧ addrs ≠ [] ∧
        addrs.length = (listenIpList cfg).length ∧
        List.Forall₂ (fun ip a => codec.NewMultiaddr (sprintfIp4Tcp ip cfg.Port) = .ok a)
          (listenIpList cfg) addrs)) := by
  have hmain : (∃ ip ∈ listenIpList cfg, ∃ e,
        codec.NewMultiaddr (sprintfIp4Tcp ip cfg.Port) = .error e ∧
        GetListenAddresses codec cfg = (none, some e)) ∨
     (∃ addrs, GetListenAddresses codec cfg = (some addrs, none) ∧ addrs ≠ [] ∧
        addrs.length = (listenIpList cfg).length ∧
        List.Forall₂ (fun ip a => codec.NewMultiaddr (sprintfIp4Tcp ip cfg.Port) = .ok a)
          (listenIpList cfg) addrs) := by
    rcases GetListenAddresses.loop_spec codec cfg.Port (listenIpList cfg) [] with
      ⟨ip, hmem, e, he, hres⟩ | ⟨addrs, hres, hall⟩
    · exact Or.inl ⟨ip, hmem, e, he, hres⟩
    · refine Or.inr ⟨addrs, by simpa [GetListenAddresses] using hres, ?_, hall.length_eq.symm,
        hall⟩
      intro hnil
      have hlen := hall.length_eq
      rw [hnil] at hlen
      exact listenIpList_ne_nil cfg (List.length_eq_zero.1 hlen)
  refine ⟨?_, ?_, hmain⟩
  · unfold listenIpList
    cases h : cfg.ListenIps <;> simp
  · constructor
    · rintro ⟨e, he⟩
      rcases hmain with ⟨ip, hmem, e2, he2, _⟩ | ⟨addrs, hres, _⟩
      · exact ⟨ip, hmem, e2, he2⟩
      · rw [he] at hres; simp at hres
    · rintro ⟨ip, hmem, e, he⟩
      rcases hmain with ⟨_, _, e2, _, hres⟩ | ⟨addrs, _, _, _, hall⟩
      · exact ⟨e2, hres⟩
      · obtain ⟨a, ha⟩ := forall₂_of_mem_left hall hmem
        rw [he] at ha; cases ha

/-- C5, counterexample: with `ListenIps` empty and port 4001 the call succeeds
with one address although no interface is configured, so the result is not one
address per entry of `ListenIps`. -/
theorem GetListenAddresses_not_per_ListenIps :
    (GetListenAddresses refCodec (mkConfig 4001 [] [])).2 = none ∧
    ∃ addrs, (GetListenAddresses refCodec (mkConfig 4001 [] [])).1 = some addrs ∧
      addrs.length = 1 ∧ (mkConfig 4001 [] []).ListenIps.length = 0 :=
  ⟨by decide, [[Component.ip4 0 0 0 0, Component.tcp 4001]], by decide, rfl, rfl⟩

/-! ## Claims on the bootstrap list -/

theorem GetBootstrapPeers.not_mem_of_excluded {α ε : Type} (codec : AddrCodec α ε)
    (cfg : Configuration) (exclude : List GoString) (addr : α) (peers : List α)
    (hex : codec.AddrString addr ∈ exclude)
    (hres : (GetBootstrapPeers codec cfg exclude).1 = some peers) :
    addr ∉ peers := by
  obtain ⟨_, new, hnew, hnot, _⟩ :=
    GetBootstrapPeers.loop_ok codec exclude cfg.BootstrapPeers [] _ rfl peers hres
  intro hmem
  rw [hnew, List.nil_append] at hmem
  exact hnot addr hmem hex

/-- C2: for every configuration and every exclusion list, if an entry of
`BootstrapPeers` is textually equal to an entry of the exclusion list, that text
being a resolved address string, that is the string form (`addr.String()`) of
the address obtained from it, then the list returned by `GetBootstrapPeers`,
empty when it returns `nil`, does not contain the address obtained from that
entry: the entry is not among the kept ones, and the list is shorter than
`BootstrapPeers`. -/
theorem GetBootstrapPeers_excludes_own_address {α ε : Type} (codec : AddrCodec α ε)
    (cfg : Configuration) (exclude : List GoString) (entry : GoString) (addr : α)
    (hentry : entry ∈ cfg.BootstrapPeers) (hex : entry ∈ exclude)
    (haddr : codec.NewMultiaddr (bootstrapAddrText entry) = .ok addr)
    (hresolved : codec.AddrString addr = entry) :
    addr ∉ ((GetBootstrapPeers codec cfg exclude).1).getD [] ∧
    keptEntry codec exclude entry = false ∧
    (((GetBootstrapPeers codec cfg exclude).1).getD []).length < cfg.BootstrapPeers.length := by
  have hkept : keptEntry codec exclude entry = false := by
    have hx : excludedLoop exclude (codec.AddrString addr) = true :=
      excludedLoop_eq_true.2 (by rw [hresolved]; exact hex)
    by_cases hnil : entry = []
    · simp [keptEntry, hnil]
    · simp [keptEntry, hnil, haddr, hx]
  have hpos : 0 < cfg.BootstrapPeers.length := List.length_pos_of_mem hentry
  cases hres : (GetBootstrapPeers codec cfg exclude).1 with
  | none => exact ⟨by simp, hkept, by simpa using hpos⟩
  | some peers =>
    refine ⟨?_, hkept, ?_⟩
    · simpa using GetBootstrapPeers.not_mem_of_excluded codec cfg exclude addr peers
        (by rw [hresolved]; exact hex) hres
    · obtain ⟨_, new, hnew, _, hall⟩ :=
        GetBootstrapPeers.loop_ok codec exclude cfg.BootstrapPeers [] _ rfl peers hres
      rw [List.nil_append] at hnew
      subst hnew
      have hlen := hall.length_eq
      have hlt : (cfg.BootstrapPeers.filter (keptEntry codec exclude)).length
          < cfg.BootstrapPeers.length :=
        List.length_filter_lt_length_iff_exists.2 ⟨entry, hentry, by simp [hkept]⟩
      simpa [← hlen] using hlt

/-- C2, witness: the entry `/ip4/127.0.0.1/tcp/4001` is the string form of the
address obtained from it and is in the exclusion list; the result holds only the
other peer. -/
theorem GetBootstrapPeers_excludes_own_address_witness :
    GetBootstrapPeers refCodec
        (mkConfig 4001 ["/ip4/127.0.0.1/tcp/4001".toList, "/ip4/10.0.0.2/tcp/4002".toList] [])
        ["/ip4/127.0.0.1/tcp/4001".toList]
      = (some [[Component.ip4 10 0 0 2, Component.tcp 4002]], none) ∧
    [Component.ip4 127 0 0 1, Component.tcp 4001]
        ∉ ((GetBootstrapPeers refCodec
          (mkConfig 4001 ["/ip4/127.0.0.1/tcp/4001".toList, "/ip4/10.0.0.2/tcp/4002".toList] [])
          ["/ip4/127.0.0.1/tcp/4001".toList]).1).getD [] :=
  ⟨by decide,
    (GetBootstrapPeers_excludes_own_address refCodec
      (mkConfig 4001 ["/ip4/127.0.0.1/tcp/4001".toList, "/ip4/10.0.0.2/tcp/4002".toList] [])
      ["/ip4/127.0.0.1/tcp/4001".toList] "/ip4/127.0.0.1/tcp/4001".toList
      [Component.ip4 127 0 0 1, Component.tcp 4001]
      (by decide) (by decide) (by decide) (by decide)).1⟩

/-- C3 (as amended): on every configuration and exclusion list on which
`GetBootstrapPeers` succeeds, the returned addresses are, in the order of
`BootstrapPeers`, the addresses of the entries that are kept (non-empty, string
form not excluded); and when the string form of each returned address is
non-empty and is read back as that address by the function's own parsing step
(the rewrite of the first `//` and the parse), a second call with the same
exclusion list on the string forms of the returned addresses returns the same
list of addresses and no error. -/
theorem GetBootstrapPeers_order_idempotent {α ε : Type} (codec : AddrCodec α ε)
    (cfg : Configuration) (exclude : List GoString) (peers : List α)
    (hres : (GetBootstrapPeers codec cfg exclude).1 = some peers)
    (hcodec : ∀ a ∈ peers, codec.AddrString a ≠ [] ∧
      codec.NewMultiaddr (bootstrapAddrText (codec.AddrString a)) = .ok a) :
    List.Forall₂ (fun s a => codec.NewMultiaddr (bootstrapAddrText s) = .ok a)
        (cfg.BootstrapPeers.filter (keptEntry codec exclude)) peers ∧
    List.Sublist (cfg.BootstrapPeers.filter (keptEntry codec exclude)) cfg.BootstrapPeers ∧
    GetBootstrapPeers codec { cfg with BootstrapPeers := peers.map codec.AddrString } exclude
      = (some peers, none) := by
  obtain ⟨_, new, hnew, hnot, hall⟩ :=
    GetBootstrapPeers.loop_ok codec exclude cfg.BootstrapPeers [] _ rfl peers hres
  rw [List.nil_append] at hnew
  subst hnew
  refine ⟨hall, List.filter_sublist _, ?_⟩
  have h := GetBootstrapPeers.loop_again codec exclude peers []
    (fun a ha => ⟨(hcodec a ha).1, hnot a ha, (hcodec a ha).2⟩)
  simpa [GetBootstrapPeers] using h

/-- C3, witness: four entries, the first excluded and the second empty; the two
remaining addresses come back in order, and their string forms give the same
list again. -/
theorem GetBootstrapPeers_order_idempotent_witness :
    GetBootstrapPeers refCodec
        (mkConfig 4001 ["/ip4/127.0.0.1/tcp/4001/".toList, [],
          "//ip4/10.0.0.2/tcp/4002".toList, "/ip4/10.0.0.3/tcp/4003".toList] [])
        ["/ip4/127.0.0.1/tcp/4001".toList]
      = (some [[Component.ip4 10 0 0 2, Component.tcp 4002],
          [Component.ip4 10 0 0 3, Component.tcp 4003]], none) ∧
    GetBootstrapPeers refCodec
        { mkConfig 4001 ["/ip4/127.0.0.1/tcp/4001/".toList, [],
            "//ip4/10.0.0.2/tcp/4002".toList, "/ip4/10.0.0.3/tcp/4003".toList] [] with
          BootstrapPeers := [[Component.ip4 10 0 0 2, Component.tcp 4002],
            [Component.ip4 10 0 0 3, Component.tcp 4003]].map refCodec.AddrString }
        ["/ip4/127.0.0.1/tcp/4001".toList]
      = (some [[Component.ip4 10 0 0 2, Component.tcp 4002],
          [Component.ip4 10 0 0 3, Component.tcp 4003]], none) :=
  ⟨by decide,
    (GetBootstrapPeers_order_idempotent refCodec
      (mkConfig 4001 ["/ip4/127.0.0.1/tcp/4001/".toList, [],
        "//ip4/10.0.0.2/tcp/4002".toList, "/ip4/10.0.0.3/tcp/4003".toList] [])
      ["/ip4/127.0.0.1/tcp/4001".toList]
      [[Component.ip4 10 0 0 2, Component.tcp 4002],
        [Component.ip4 10 0 0 3, Component.tcp 4003]]
      (by decide) (by decide)).2.2⟩

/-- C3, counterexample: on the unix codec the entry `/unix/a///b` gives the
address with path `/a//b`, whose string form is `/unix/a//b`; the second call, on
that string form, rewrites its `//` and returns the address with path `/a/b`,
which is another address. -/
theorem GetBootstrapPeers_second_call_differs :
    GetBootstrapPeers unixCodec (mkConfig 4001 ["/unix/a///b".toList] []) []
      = (some ["/a//b".toList], none) ∧
    ["/a//b".toList].map unixCodec.AddrString = ["/unix/a//b".toList] ∧
    GetBootstrapPeers unixCodec
        { mkConfig 4001 ["/unix/a///b".toList] [] with
          BootstrapPeers := ["/a//b".toList].map unixCodec.AddrString } []
      = (some ["/a/b".toList], none) ∧
    (some ["/a/b".toList], (none : Option RefError)) ≠ (some ["/a//b".toList], none) := by
  decide

/-- C4 (as amended): for every configuration in which some non-empty entry of
`BootstrapPeers` is rejected by the codec in the form the function parses it
(first `//` replaced by `/`, then `/` appended), `GetBootstrapPeers` returns an
error and the `nil` list, whatever the position of that entry and whatever the
exclusion list. Empty entries are skipped without being parsed. -/
theorem GetBootstrapPeers_strict {α ε : Type} (codec : AddrCodec α ε)
    (cfg : Configuration) (exclude : List GoString) (s : GoString) (e : ε)
    (hmem : s ∈ cfg.BootstrapPeers) (hne : s ≠ [])
    (hbad : codec.NewMultiaddr (bootstrapAddrText s) = .error e) :
    ∃ err, GetBootstrapPeers codec cfg exclude = (none, some err) :=
  GetBootstrapPeers.loop_error codec exclude cfg.BootstrapPeers [] ⟨s, hmem, hne, e, hbad⟩

/-- C4, witness: a good entry followed by the entry `/ip4/10.0.0.2/tcp/70000`; the
result is the `nil` list and an error, not the one address that parsed. -/
theorem GetBootstrapPeers_strict_witness :
    refCodec.NewMultiaddr (bootstrapAddrText "/ip4/10.0.0.2/tcp/70000".toList)
      = .error RefError.invalidComponent ∧
    ∃ err, GetBootstrapPeers refCodec
        (mkConfig 4001 ["/ip4/10.0.0.1/tcp/4001".toList, "/ip4/10.0.0.2/tcp/70000".toList] [])
        [] = (none, some err) :=
  ⟨by decide,
    GetBootstrapPeers_strict refCodec
      (mkConfig 4001 ["/ip4/10.0.0.1/tcp/4001".toList, "/ip4/10.0.0.2/tcp/70000".toList] [])
      [] "/ip4/10.0.0.2/tcp/70000".toList RefError.invalidComponent
      (by decide) (by decide) (by decide)⟩

/-- C4, counterexample: the entries `""` and `//ip4/127.0.0.1/tcp/4001` are both
rejected by the codec as they stand, yet `GetBootstrapPeers` returns no error: the
empty entry is skipped and the other one is parsed after its `//` is rewritten. -/
theorem GetBootstrapPeers_unparsable_entries_accepted :
    refCodec.NewMultiaddr [] = .error RefError.emptyMultiaddr ∧
    refCodec.NewMultiaddr "//ip4/127.0.0.1/tcp/4001".toList
      = .error RefError.invalidComponent ∧
    GetBootstrapPeers refCodec (mkConfig 4001 [[]] []) [] = (some [], none) ∧
    GetBootstrapPeers refCodec (mkConfig 4001 [[], "//ip4/127.0.0.1/tcp/4001".toList] []) []
      = (some [[Component.ip4 127 0 0 1, Component.tcp 4001]], none) := by
  decide

/-! ## The refresh loop -/

theorem refreshLoop_failingFirst {ε : Type} (e : ε) (n : Nat) :
    ∀ (k fuel : Nat) (st : RefreshState ε) (d : Nat),
      st.refreshed = false → d + k = n → k + 1 ≤ fuel →
      refreshLoop (failingFirst e n) fuel st d
        = some ({ refreshed := true, err := none, attempts := st.attempts + k + 1,
                  slept := st.slept + 10 * k }, n + 1) := by
  intro k
  induction k with
  | zero =>
    intro fuel st d hst hd hfuel
    obtain ⟨f, rfl⟩ : ∃ f, fuel = f + 1 := ⟨fuel - 1, by omega⟩
    have hd2 : ¬ d < n := by omega
    have hd3 : d = n := by omega
    cases f <;> simp [refreshLoop, failingFirst, hst, hd2, hd3]
  | succ k ih =>
    intro fuel st d hst hd hfuel
    obtain ⟨f, rfl⟩ : ∃ f, fuel = f + 1 := ⟨fuel - 1, by omega⟩
    have hd2 : d < n := by omega
    have h := ih f
      { refreshed := false, err := some e, attempts := st.attempts + 1, slept := st.slept + 10 }
      (d + 1) rfl (by omega) (by omega)
    simp only [refreshLoop, failingFirst, hst, hd2, if_true, Bool.not_false]
    rw [h]
    simp only [Option.some.injEq, Prod.mk.injEq, RefreshState.mk.injEq, true_and, and_true]
    omega

theorem refreshLoop_alwaysFailing {ε : Type} (e : ε) :
    ∀ (fuel : Nat) (st : RefreshState ε) (d : Nat),
      st.refreshed = false → refreshLoop (alwaysFailing e) fuel st d = none := by
  intro fuel
  induction fuel with
  | zero => intro st d hst; simp [refreshLoop, hst]
  | succ f ih =>
    intro st d hst
    have h := ih
      { refreshed := false, err := some e, attempts := st.attempts + 1, slept := st.slept + 10 }
      (d + 1) rfl
    simp only [refreshLoop, alwaysFailing, hst, if_true, Bool.not_false]
    exact h

theorem refreshLoop_exit {ε D : Type} (refresh : D → Option ε × D) :
    ∀ (fuel : Nat) (st : RefreshState ε) (d : D),
      st.refreshed = false →
      refreshLoop refresh fuel st d = none ∨
      (refreshLoop refresh fuel st d).map (fun r => (r.1.refreshed, r.1.err))
        = some (true, none) := by
  intro fuel
  induction fuel with
  | zero => intro st d hst; simp [refreshLoop, hst]
  | succ f ih =>
    intro st d hst
    simp only [refreshLoop, hst, if_true, Bool.not_false]
    rcases hr : refresh d with ⟨_ | e, d2⟩
    · simp only []
      cases f <;> simp [refreshLoop]
    · simp only []
      exact ih _ d2 rfl

/-- C6 (the code at the failing input): `Run` sets `refreshed := true` right
before `for !refreshed`, so against every directory its refresh step makes no
refresh attempt, waits only the final second and goes on without an error. In
particular it makes no attempt against a directory that fails once and then
succeeds, where the loop, had it been entered with `refreshed` false, makes the
two attempts of the claim and waits ten seconds between them. -/
theorem refreshStep_makes_no_attempt {ε D : Type} (refresh : D → Option ε × D) (fuel : Nat)
    (d : D) :
    refreshStep refresh fuel d
      = some ({ refreshed := true, err := none, attempts := 0, slept := 1 }, d) ∧
    refreshStep (failingFirst () 1) 3 0
      = some ({ refreshed := true, err := none, attempts := 0, slept := 1 }, 0) ∧
    refreshLoop (failingFirst () 1) 3
        { refreshed := false, err := none, attempts := 0, slept := 0 } 0
      = some ({ refreshed := true, err := none, attempts := 2, slept := 10 }, 2) := by
  refine ⟨?_, by decide, by decide⟩
  cases fuel <;> simp [refreshStep, refreshLoop]

/-! ## The discovery loop -/

theorem discoveryLoop_log {P A S ε H : Type} [DecidableEq P] (hostID : P)
    (NewStream : H → P → Except ε S × H) :
    ∀ (peers : List (AddrInfo P A)) (h : H) (log : List (Event P S)),
      discoveryLoop hostID NewStream peers h log
        = (log ++ (discoveryLoop hostID NewStream peers h []).1,
           (discoveryLoop hostID NewStream peers h []).2) := by
  intro peers
  induction peers with
  | nil => intro h log; simp [discoveryLoop]
  | cons p rest ih =>
    intro h log
    by_cases hp : p.ID = hostID
    · simp only [discoveryLoop, hp, if_true]
      exact ih h log
    · simp only [discoveryLoop, hp, if_false]
      rcases hr : NewStream h p.ID with ⟨_ | stream, h2⟩
      · simp only []
        rw [ih h2 (log ++ _), ih h2 ([] ++ _)]
        simp
      · simp only []
        rw [ih h2 (log ++ _), ih h2 ([] ++ _)]
        simp

theorem discoveryLoop_cons_self {P A S ε H : Type} [DecidableEq P] (hostID : P)
    (NewStream : H → P → Except ε S × H) (p : AddrInfo P A) (rest : List (AddrInfo P A))
    (h : H) (log : List (Event P S)) (hp : p.ID = hostID) :
    discoveryLoop hostID NewStream (p :: rest) h log
      = discoveryLoop hostID NewStream rest h log := by
  simp [discoveryLoop, hp]

theorem discoveryLoop_cons_other {P A S ε H : Type} [DecidableEq P] (hostID : P)
    (NewStream : H → P → Except ε S × H) (p : AddrInfo P A) (rest : List (AddrInfo P A))
    (h : H) (hp : p.ID ≠ hostID) :
    (discoveryLoop hostID NewStream (p :: rest) h []).1
      = (match (NewStream h p.ID).1 with
          | .error _ => [Event.NewStream p.ID]
          | .ok stream => [Event.NewStream p.ID, Event.goWriteData p.ID stream,
              Event.goReadData p.ID stream])
        ++ (discoveryLoop hostID NewStream rest (NewStream h p.ID).2 []).1 := by
  simp only [discoveryLoop, hp, if_false]
  rcases hr : NewStream h p.ID with ⟨_ | stream, h2⟩
  · simp only []
    rw [discoveryLoop_log]
    simp
  · simp only []
    rw [discoveryLoop_log]
    simp

/-- C7: in the discovery loop, whatever peers are discovered and whatever the
connection attempts do, no event concerns a peer whose identifier is the local
host's: no `NewStream` call is made for it and no writer or reader is started for
it; the loop behaves as if such peers had not been discovered. -/
theorem discoveryLoop_never_self {P A S ε H : Type} [DecidableEq P] (hostID : P)
    (NewStream : H → P → Except ε S × H) (peers : List (AddrInfo P A)) (h : H) :
    (discoveryLoop hostID NewStream peers h []).1.filter
        (fun ev => decide (ev.peer = hostID)) = [] ∧
    discoveryLoop hostID NewStream peers h []
      = discoveryLoop hostID NewStream
          (peers.filter (fun p => !decide (p.ID = hostID))) h [] := by
  induction peers generalizing h with
  | nil => simp [discoveryLoop]
  | cons p rest ih =>
    by_cases hp : p.ID = hostID
    · rw [discoveryLoop_cons_self hostID NewStream p rest h [] hp]
      rw [List.filter_cons_of_neg (by simp [hp])]
      exact ih h
    · have hkeep : (p :: rest).filter (fun p => !decide (p.ID = hostID))
          = p :: rest.filter (fun p => !decide (p.ID = hostID)) := by
        simp [List.filter_cons, hp]
      rw [hkeep]
      constructor
      · rw [discoveryLoop_cons_other hostID NewStream p rest h hp, List.filter_append,
          (ih _).1]
        cases (NewStream h p.ID).1 <;> simp [Event.peer, hp]
      · simp only [discoveryLoop, hp, if_false]
        rcases hr : NewStream h p.ID with ⟨_ | stream, h2⟩
        · simp only []
          rw [discoveryLoop_log, discoveryLoop_log hostID NewStream (rest.filter _), (ih h2).2]
        · simp only []
          rw [discoveryLoop_log, discoveryLoop_log hostID NewStream (rest.filter _), (ih h2).2]

/-- C8: in the discovery loop, whatever peers are discovered and whatever the
connection attempts do, `NewStream` is called once for every discovered peer
whose identifier differs from the local one, in discovery order, whether or not
earlier calls failed; and the writers started, like the readers started, are
exactly the streams of the calls that succeeded, one writer and one reader for
each, in the same order. -/
theorem discoveryLoop_attempts_sessions {P A S ε H : Type} [DecidableEq P] (hostID : P)
    (NewStream : H → P → Except ε S × H) (peers : List (AddrInfo P A)) (h : H) :
    (discoveryLoop hostID NewStream peers h []).1.filterMap Event.attempt
      = (peers.map (fun p => p.ID)).filter (fun id => !decide (id = hostID)) ∧
    (discoveryLoop hostID NewStream peers h []).1.filterMap Event.writer
      = (attemptResults NewStream
          ((peers.map (fun p => p.ID)).filter (fun id => !decide (id = hostID))) h).filterMap
          sessionOf ∧
    (discoveryLoop hostID NewStream peers h []).1.filterMap Event.reader
      = (attemptResults NewStream
          ((peers.map (fun p => p.ID)).filter (fun id => !decide (id = hostID))) h).filterMap
          sessionOf := by
  induction peers generalizing h with
  | nil => simp [discoveryLoop, attemptResults]
  | cons p rest ih =>
    by_cases hp : p.ID = hostID
    · rw [discoveryLoop_cons_self hostID NewStream p rest h [] hp, List.map_cons,
        List.filter_cons_of_neg (by simp [hp])]
      exact ih h
    · have hkeep : (p.ID :: rest.map (fun p => p.ID)).filter (fun id => !decide (id = hostID))
          = p.ID :: (rest.map (fun p => p.ID)).filter (fun id => !decide (id = hostID)) := by
        simp [List.filter_cons, hp]
      rw [discoveryLoop_cons_other hostID NewStream p rest h hp, List.map_cons, hkeep]
      obtain ⟨h1, h2, h3⟩ := ih (NewStream h p.ID).2
      simp only [List.filterMap_append, h1, h2, h3, attemptResults]
      cases (NewStream h p.ID).1 <;>
        simp [Event.attempt, Event.writer, Event.reader, sessionOf, List.filterMap_cons]

/-- A run of the discovery loop with local identifier 7: peer 1 fails to connect,
peer 7 is the host itself, peers 2 and 4 connect, and peer 2 is discovered a
second time. -/
theorem discoveryLoop_example :
    (discoveryLoop 7 stubNewStream
        [(⟨1, []⟩ : AddrInfo Nat Unit), ⟨7, []⟩, ⟨2, []⟩, ⟨4, []⟩, ⟨2, []⟩] 0 []).1
      = [Event.NewStream 1,
         Event.NewStream 2, Event.goWriteData 2 102, Event.goReadData 2 102,
         Event.NewStream 4, Event.goWriteData 4 204, Event.goReadData 4 204,
         Event.NewStream 2, Event.goWriteData 2 302, Event.goReadData 2 302] := by
  decide


/-! ## The line codec -/

theorem ReadString_line (endErr : ReadError) (rest : GoString) :
    ∀ (l : GoString), '\n' ∉ l →
      ReadString endErr '\n' (l ++ '\n' :: rest) = (l ++ ['\n'], none, rest) := by
  intro l
  induction l with
  | nil => intro _; simp [ReadString]
  | cons c l ih =>
    intro h
    have hc : c ≠ '\n' := fun hc => h (by simp [hc])
    have hl : '\n' ∉ l := fun hl => h (List.mem_cons_of_mem _ hl)
    simp [ReadString, hc, ih hl]

theorem linesStream_cons (l : GoString) (ls : List GoString) :
    linesStream (l :: ls) = l ++ '\n' :: linesStream ls := by
  simp [linesStream, sprintfLine]

theorem readData_lines (endErr : ReadError) :
    ∀ (lines : List GoString) (fuel : Nat) (shown : List GoString),
      (∀ l ∈ lines, '\n' ∉ l) → lines.length + 1 ≤ fuel →
      readData endErr fuel (linesStream lines) shown
        = some (shown ++ (lines.filter (fun l => !decide (l = []))).map sprintfLine,
            Exit.panicked endErr) := by
  intro lines
  induction lines with
  | nil =>
    intro fuel shown _ hfuel
    obtain ⟨f, rfl⟩ : ∃ f, fuel = f + 1 := ⟨fuel - 1, by simp at hfuel; omega⟩
    simp [readData, linesStream, ReadString]
  | cons l ls ih =>
    intro fuel shown hl hfuel
    obtain ⟨f, rfl⟩ : ∃ f, fuel = f + 1 := ⟨fuel - 1, by simp at hfuel; omega⟩
    have hl1 : '\n' ∉ l := hl l (List.mem_cons_self _ _)
    have hls : ∀ x ∈ ls, '\n' ∉ x := fun x hx => hl x (List.mem_cons_of_mem _ hx)
    have hf : ls.length + 1 ≤ f := by simp at hfuel; omega
    rw [linesStream_cons]
    simp only [readData, ReadString_line endErr (linesStream ls) l hl1]
    by_cases hnil : l = []
    · subst hnil
      simp [ih f shown hls hf]
    · have h1 : l ++ ['\n'] ≠ ['\n'] := by
        intro hcontra
        cases l with
        | nil => exact hnil rfl
        | cons c t => simp at hcontra
      have h2 : l ++ ['\n'] ≠ [] := by simp
      simp [h1, h2, hnil, ih f (shown ++ [l ++ ['\n']]) hls hf, sprintfLine]

/-- C9 (as amended): for every non-empty text that contains no newline, and for
every way the stream ends afterwards, decoding the writer's encoding of the text
(the text with a trailing `\n`) as the reader does forwards exactly one message,
and that message is the text followed by its `\n`: the delimiter is not stripped
before delivery. -/
theorem readData_sprintfLine (endErr : ReadError) (text : GoString) (fuel : Nat)
    (hnl : '\n' ∉ text) (hne : text ≠ []) (hfuel : 2 ≤ fuel) :
    (readData endErr fuel (sprintfLine text) []).map Prod.fst = some [text ++ ['\n']] := by
  have h := readData_lines endErr [text] fuel [] (by simpa using hnl) (by simpa using hfuel)
  have hs : linesStream [text] = sprintfLine text := by simp [linesStream]
  rw [hs] at h
  rw [h]
  simp [hne, sprintfLine]

/-- C9, witness: the text `hello`. -/
theorem readData_sprintfLine_witness :
    (readData ReadError.EOF 2 (sprintfLine "hello".toList) []).map Prod.fst
      = some ["hello\n".toList] :=
  readData_sprintfLine ReadError.EOF "hello".toList 2 (by decide) (by decide) (by decide)

/-- C9, counterexample: for the text `hello` the one message forwarded is
`hello\n`, not `hello`; for the empty text no message is forwarded at all. -/
theorem readData_keeps_delimiter :
    sprintfLine "hello".toList = "hello\n".toList ∧
    (readData ReadError.EOF 5 (sprintfLine "hello".toList) []).map Prod.fst
      = some ["hello\n".toList] ∧
    (readData ReadError.EOF 5 (sprintfLine "hello".toList) []).map Prod.fst
      ≠ some ["hello".toList] ∧
    (readData ReadError.EOF 5 (sprintfLine []) []).map Prod.fst = some [] := by
  decide

/-- C10 (as amended): for every stream made of newline-terminated lines, and for
every way the stream ends afterwards, the reader forwards one message per
non-empty line, in stream order, and none for an empty line, also when non-empty
lines follow an empty one; each message is its line followed by the `\n`. For the
stream `a\n\nb\n` the forwarded messages are `a\n` and `b\n`. -/
theorem readData_skips_empty_lines (endErr : ReadError) (lines : List GoString) (fuel : Nat)
    (hnl : ∀ l ∈ lines, '\n' ∉ l) (hfuel : lines.length + 1 ≤ fuel) :
    (readData endErr fuel (linesStream lines) []).map Prod.fst
      = some ((lines.filter (fun l => !decide (l = []))).map (fun l => l ++ ['\n'])) := by
  rw [readData_lines endErr lines fuel [] hnl hfuel]
  simp [sprintfLine]

/-- C10, witness: the stream `a\n\nb\n`. -/
theorem readData_skips_empty_lines_witness :
    linesStream ["a".toList, [], "b".toList] = "a\n\nb\n".toList ∧
    (readData ReadError.EOF 4 "a\n\nb\n".toList []).map Prod.fst
      = some ["a\n".toList, "b\n".toList] :=
  ⟨by decide,
    readData_skips_empty_lines ReadError.EOF ["a".toList, [], "b".toList] 4
      (by decide) (by decide)⟩

/-- C10, counterexample: on the stream `a\n\nb\n` the forwarded messages are
`a\n` and `b\n`, not `a` and `b`. -/
theorem readData_forwards_delimiters :
    (readData ReadError.EOF 10 "a\n\nb\n".toList []).map Prod.fst
      = some ["a\n".toList, "b\n".toList] ∧
    (readData ReadError.EOF 10 "a\n\nb\n".toList []).map Prod.fst
      ≠ some ["a".toList, "b".toList] := by
  decide

/-! ## The key generator -/

/-- C14: for key type `rsa`, `newKeyGenerator` returns a generator with bits 2048
when the bits flag is 0, with the flag's value when it is 1024, 2048 or 4096, and
an error and no generator for every other value; for `ed25519` and `secp256k1`
the generator carries the bits flag as it is, whatever its value, and for `ecdsa`
so does the generator returned when the curve is valid. -/
theorem newKeyGenerator_bits (flags : KeyFlags) :
    newKeyGenerator { flags with ktParam := "rsa".toList } =
      (if flags.bits = 0 then
        (some { keyType := rsa,
                outPath := if flags.outpath = [] then "private.key".toList else flags.outpath,
                bits := 2048, curve := [] }, none)
      else if flags.bits = 1024 ∨ flags.bits = 2048 ∨ flags.bits = 4096 then
        (some { keyType := rsa,
                outPath := if flags.outpath = [] then "private.key".toList else flags.outpath,
                bits := flags.bits, curve := [] }, none)
      else
        (none, some ("invalid bit size ".toList ++ fmtInt flags.bits
          ++ " for rsa key".toList))) ∧
    newKeyGenerator { flags with ktParam := "ed25519".toList } =
      (some { keyType := ed25519,
              outPath := if flags.outpath = [] then "private.key".toList else flags.outpath,
              bits := flags.bits, curve := [] }, none) ∧
    newKeyGenerator { flags with ktParam := "secp256k1".toList } =
      (some { keyType := secp256k1,
              outPath := if flags.outpath = [] then "private.key".toList else flags.outpath,
              bits := flags.bits, curve := [] }, none) ∧
    newKeyGenerator { flags with ktParam := "ecdsa".toList } =
      (match parseEcdsaCurve flags.curveParam with
        | (_, some err) => (none, some err)
        | (curve, none) =>
          (some { keyType := ecdsa,
                  outPath := if flags.outpath = [] then "private.key".toList else flags.outpath,
                  bits := flags.bits, curve := curve }, none)) := by
  refine ⟨?_, ?_, ?_, ?_⟩
  · by_cases h0 : flags.bits = 0
    · simp [newKeyGenerator, parseKeytype, rsa, ecdsa, h0]
    · by_cases h1 : flags.bits = 1024 ∨ flags.bits = 2048 ∨ flags.bits = 4096
      · simp [newKeyGenerator, parseKeytype, rsa, ecdsa, h0, h1]
      · simp [newKeyGenerator, parseKeytype, rsa, ecdsa, h0, h1]
  · simp [newKeyGenerator, parseKeytype, rsa, ecdsa, ed25519]
  · simp [newKeyGenerator, parseKeytype, rsa, ecdsa, secp256k1]
  · simp only [newKeyGenerator, parseKeytype, rsa, ecdsa]
    rcases hc : parseEcdsaCurve flags.curveParam with ⟨curve, _ | err⟩ <;> simp

/-- Runs of `newKeyGenerator` for key type `rsa`: the default, an accepted size
and a rejected one. -/
theorem newKeyGenerator_rsa_examples :
    newKeyGenerator ⟨"rsa".toList, 0, "p256".toList, "private.key".toList⟩
      = (some ⟨rsa, "private.key".toList, 2048, []⟩, none) ∧
    newKeyGenerator ⟨"rsa".toList, 4096, "p256".toList, "private.key".toList⟩
      = (some ⟨rsa, "private.key".toList, 4096, []⟩, none) ∧
    newKeyGenerator ⟨"rsa".toList, 512, "p256".toList, "private.key".toList⟩
      = (none, some "invalid bit size 512 for rsa key".toList) ∧
    newKeyGenerator ⟨"ed25519".toList, 512, "p256".toList, "private.key".toList⟩
      = (some ⟨ed25519, "private.key".toList, 512, []⟩, none) := by
  decide

/-! ## The writer -/

theorem Flush_accepting (b : BufWriter Unit) (herr : b.err = none) :
    b.Flush acceptingStream = (none, { b with buf := [], wire := b.wire ++ b.buf }) := by
  obtain ⟨size, buf, err, wire⟩ := b
  simp only at herr
  subst herr
  cases buf with
  | nil => simp [BufWriter.Flush]
  | cons c cs => simp [BufWriter.Flush, acceptingStream]

theorem WriteString_loop_accepting :
    ∀ (fuel : Nat) (b : BufWriter Unit) (s : GoString),
      b.err = none → b.buf = [] → 0 < b.size → s.length ≤ fuel →
      ∃ pre post, BufWriter.WriteString.loop acceptingStream fuel b s
          = some ({ b with wire := b.wire ++ pre }, post) ∧ pre ++ post = s := by
  intro fuel
  induction fuel with
  | zero =>
    intro b s herr hbuf hsize hfuel
    have hs : s = [] := List.length_eq_zero.1 (by omega)
    subst hs
    refine ⟨[], [], ?_, rfl⟩
    obtain ⟨size, buf, err, wire⟩ := b
    simp [BufWriter.WriteString.loop]
  | succ f ih =>
    intro b s herr hbuf hsize hfuel
    obtain ⟨size, buf, err, wire⟩ := b
    simp only at herr hbuf hsize
    subst herr hbuf
    by_cases hlen : s.length > size
    · have hflush := Flush_accepting
        { size := size, buf := s.take size, err := none, wire := wire } rfl
      have hdrop : (s.drop size).length ≤ f := by simp; omega
      obtain ⟨pre, post, hloop, hcat⟩ := ih
        { size := size, buf := [], err := none, wire := wire ++ s.take size } (s.drop size)
        rfl rfl hsize hdrop
      refine ⟨s.take size ++ pre, post, ?_, ?_⟩
      · simp only [BufWriter.WriteString.loop, BufWriter.Available, List.length_nil,
          Nat.sub_zero, hlen, Option.isNone_none, and_self, if_true, List.nil_append]
        rw [hflush]
        simp only [hloop, List.append_assoc]
      · rw [List.append_assoc, hcat, List.take_append_drop]
    · refine ⟨[], s, ?_, rfl⟩
      simp [BufWriter.WriteString.loop, BufWriter.Available, hlen]

theorem WriteString_then_Flush_accepting (b : BufWriter Unit) (s : GoString)
    (herr : b.err = none) (hbuf : b.buf = []) (hsize : 0 < b.size) :
    ∃ b', b.WriteString acceptingStream s = some (none, b') ∧
      b'.Flush acceptingStream = (none, { b with wire := b.wire ++ s }) := by
  obtain ⟨pre, post, hloop, hcat⟩ :=
    WriteString_loop_accepting (s.length + 1) b s herr hbuf hsize (by omega)
  obtain ⟨size, buf, err, wire⟩ := b
  simp only at herr hbuf
  subst herr hbuf
  refine ⟨{ size := size, buf := post, err := none, wire := wire ++ pre }, ?_, ?_⟩
  · simp [BufWriter.WriteString, hloop]
  · rw [Flush_accepting _ rfl]
    simp [List.append_assoc, hcat]

theorem writeData_step (stdinErr : ReadError) (fuel : Nat) (t rest : GoString)
    (rw : BufWriter Unit) (log : List WriterEvent) (hnl : '\n' ∉ t)
    (hbuf : rw.buf = []) (herr : rw.err = none) (hsize : 0 < rw.size) :
    writeData acceptingStream stdinErr (fuel + 1) (t ++ '\n' :: rest) rw log
      = writeData acceptingStream stdinErr fuel rest
          { rw with wire := rw.wire ++ (t ++ ['\n', '\n']) }
          (log ++ lineEvents (t ++ ['\n'])) := by
  have hline : sprintfLine (t ++ ['\n']) = t ++ ['\n', '\n'] := by simp [sprintfLine]
  obtain ⟨b', hw, hf⟩ :=
    WriteString_then_Flush_accepting rw (t ++ ['\n', '\n']) herr hbuf hsize
  simp only [writeData, ReadString_line stdinErr rest t hnl, hline, hw, hf, lineEvents]

theorem writeData_lines (stdinErr : ReadError) :
    ∀ (lines : List GoString) (fuel : Nat) (rw : BufWriter Unit) (log : List WriterEvent),
      (∀ l ∈ lines, '\n' ∉ l) → lines.length + 1 ≤ fuel →
      rw.buf = [] → rw.err = none → 0 < rw.size →
      writeData acceptingStream stdinErr fuel (linesStream lines) rw log
        = some (log ++ (lines.map (fun t => lineEvents (t ++ ['\n']))).flatten,
            { rw with wire := rw.wire ++ (lines.map (fun t => t ++ ['\n', '\n'])).flatten },
            WriterExit.stdinPanic stdinErr) := by
  intro lines
  induction lines with
  | nil =>
    intro fuel rw log _ hfuel hbuf herr hsize
    obtain ⟨f, rfl⟩ : ∃ f, fuel = f + 1 := ⟨fuel - 1, by simp at hfuel; omega⟩
    simp [writeData, linesStream, ReadString]
  | cons l ls ih =>
    intro fuel rw log hl hfuel hbuf herr hsize
    obtain ⟨f, rfl⟩ : ∃ f, fuel = f + 1 := ⟨fuel - 1, by simp at hfuel; omega⟩
    have hl1 : '\n' ∉ l := hl l (List.mem_cons_self _ _)
    have hls : ∀ x ∈ ls, '\n' ∉ x := fun x hx => hl x (List.mem_cons_of_mem _ hx)
    have hf : ls.length + 1 ≤ f := by simp at hfuel; omega
    rw [linesStream_cons, writeData_step stdinErr f l (linesStream ls) rw log hl1 hbuf herr hsize,
      ih f { rw with wire := rw.wire ++ (l ++ ['\n', '\n']) } _ hls hf hbuf herr hsize]
    simp

/-- C11 (as amended): for every line of operator input with text `t`, read when
the writer's buffer is empty and the stream takes every write, `writeData` puts
on the stream exactly `t` followed by two newline delimiters, the line's own and
the one it appends, with one call of `WriteString` and one call of `Flush`, and
goes on to the next line with nothing left in the buffer; on an input of
newline-terminated lines it does so for each line in turn, and ends by panicking
on the error that ends the input. -/
theorem writeData_line_then_flush (stdinErr : ReadError) (fuel : Nat) (t rest : GoString)
    (lines : List GoString) (rw : BufWriter Unit) (log : List WriterEvent)
    (hnl : '\n' ∉ t) (hlines : ∀ l ∈ lines, '\n' ∉ l)
    (hbuf : rw.buf = []) (herr : rw.err = none) (hsize : 0 < rw.size)
    (hfuel : lines.length + 1 ≤ fuel) :
    writeData acceptingStream stdinErr (fuel + 1) (t ++ '\n' :: rest) rw log
      = writeData acceptingStream stdinErr fuel rest
          { size := rw.size, buf := [], err := none, wire := rw.wire ++ (t ++ ['\n', '\n']) }
          (log ++ [WriterEvent.readLine (t ++ ['\n']),
            WriterEvent.writeString (t ++ ['\n', '\n']), WriterEvent.flush]) ∧
    writeData acceptingStream stdinErr fuel (linesStream lines) rw log
      = some (log ++ (lines.map (fun t => lineEvents (t ++ ['\n']))).flatten,
          { size := rw.size, buf := [], err := none,
            wire := rw.wire ++ (lines.map (fun t => t ++ ['\n', '\n'])).flatten },
          WriterExit.stdinPanic stdinErr) := by
  obtain ⟨size, buf, err, wire⟩ := rw
  simp only at hbuf herr hsize
  subst hbuf herr
  refine ⟨?_, writeData_lines stdinErr lines fuel _ log hlines hfuel rfl rfl hsize⟩
  rw [writeData_step stdinErr fuel t rest _ log hnl rfl rfl hsize]
  simp [lineEvents, sprintfLine]

/-- C11, witness: the operator types `hello` and then `yo`, on the writer that
`bufio.NewWriter` gives. -/
theorem writeData_line_then_flush_witness :
    writeData acceptingStream ReadError.EOF 3 "hello\nyo\n".toList (NewWriter Unit []) []
      = some ([WriterEvent.readLine "hello\n".toList,
            WriterEvent.writeString "hello\n\n".toList, WriterEvent.flush,
            WriterEvent.readLine "yo\n".toList,
            WriterEvent.writeString "yo\n\n".toList, WriterEvent.flush],
          { size := 4096, buf := [], err := none, wire := "hello\n\nyo\n\n".toList },
          WriterExit.stdinPanic ReadError.EOF) :=
  (writeData_line_then_flush ReadError.EOF 3 "x".toList [] ["hello".toList, "yo".toList]
    (NewWriter Unit []) [] (by decide) (by decide) rfl rfl (by decide) (by decide)).2

/-- C11, counterexample: for the input line `hello` the stream receives
`hello\n\n`, the text followed by two newlines, not `hello\n`. -/
theorem writeData_two_newlines :
    (writeData acceptingStream ReadError.EOF 2 "hello\n".toList (NewWriter Unit []) []).map
        (fun r => r.2.1.wire)
      = some "hello\n\n".toList ∧
    "hello\n\n".toList ≠ "hello\n".toList := by
  decide

/-- Runs of `writeData` on a writer with a buffer of four bytes. A line longer
than the buffer is passed on in pieces, the last by `Flush`; on a stream that
fails every write such a line makes `WriteString` fail, with the buffer full,
and a line that fits makes `Flush` fail. -/
theorem writeData_small_buffer_examples :
    writeData acceptingStream ReadError.EOF 2 "hello\n".toList
        { size := 4, buf := [], err := none, wire := [] } []
      = some ([WriterEvent.readLine "hello\n".toList,
            WriterEvent.writeString "hello\n\n".toList, WriterEvent.flush],
          { size := 4, buf := [], err := none, wire := "hello\n\n".toList },
          WriterExit.stdinPanic ReadError.EOF) ∧
    writeData failingStream ReadError.EOF 2 "hello\n".toList
        { size := 4, buf := [], err := none, wire := [] } []
      = some ([WriterEvent.readLine "hello\n".toList],
          { size := 4, buf := "hell".toList, err := some (WriteError.stream ()), wire := [] },
          WriterExit.writePanic (WriteError.stream ())) ∧
    writeData failingStream ReadError.EOF 2 "hi\n".toList
        { size := 4, buf := [], err := none, wire := [] } []
      = some ([WriterEvent.readLine "hi\n".toList, WriterEvent.writeString "hi\n\n".toList],
          { size := 4, buf := "hi\n\n".toList, err := some (WriteError.stream ()), wire := [] },
          WriterExit.flushPanic (WriteError.stream ())) := by
  decide

/-! ## The end of a reader -/

theorem ReadString_error (endErr : ReadError) (delim : Char) :
    ∀ (s str rest : GoString) (err : ReadError),
      ReadString endErr delim s = (str, some err, rest) → err = endErr := by
  intro s
  induction s with
  | nil =>
    intro str rest err h
    simp only [ReadString, Prod.mk.injEq, Option.some.injEq] at h
    exact h.2.1.symm
  | cons c s ih =>
    intro str rest err h
    by_cases hc : c = delim
    · simp [ReadString, hc] at h
    · rcases hr : ReadString endErr delim s with ⟨str2, err2, rest2⟩
      simp only [ReadString, hc, if_false, hr, Prod.mk.injEq] at h
      exact ih str2 rest2 err (by rw [hr, h.2.1])

theorem ReadString_ok (endErr : ReadError) (delim : Char) :
    ∀ (s str rest : GoString),
      ReadString endErr delim s = (str, none, rest) → str ≠ [] ∧ rest.length < s.length := by
  intro s
  induction s with
  | nil => intro str rest h; simp [ReadString] at h
  | cons c s ih =>
    intro str rest h
    by_cases hc : c = delim
    · simp only [ReadString, hc, if_true, Prod.mk.injEq] at h
      obtain ⟨h1, _, h3⟩ := h
      subst h1 h3
      simp
    · rcases hr : ReadString endErr delim s with ⟨str2, err2, rest2⟩
      simp only [ReadString, hc, if_false, hr, Prod.mk.injEq] at h
      obtain ⟨h1, h2, h3⟩ := h
      subst h1 h2 h3
      have := (ih str2 rest2 hr).2
      exact ⟨by simp, by simp; omega⟩

theorem readData_exit (endErr : ReadError) :
    ∀ (fuel : Nat) (stream : GoString) (shown : List GoString),
      stream.length < fuel →
      (readData endErr fuel stream shown).map Prod.snd = some (Exit.panicked endErr) := by
  intro fuel
  induction fuel with
  | zero => intro stream shown h; omega
  | succ f ih =>
    intro stream shown h
    rcases hr : ReadString endErr '\n' stream with ⟨str, err, rest⟩
    cases err with
    | some e =>
      have he := ReadString_error endErr '\n' stream str rest e hr
      simp [readData, hr, he]
    | none =>
      obtain ⟨hne, hlen⟩ := ReadString_ok endErr '\n' stream str rest hr
      have hf : rest.length < f := by omega
      by_cases hnl : str = ['\n']
      · simp [readData, hr, hnl, ih rest shown hf]
      · simp [readData, hr, hne, hnl, ih rest (shown ++ [str]) hf]

/-- C12 (as amended): on every stream, whatever it holds and whatever error ends
it (end-of-stream by a close of the peer, or another read error), `readData` ends
its session's reader by panicking with that error, not by returning normally. -/
theorem readData_panics_on_read_error (endErr : ReadError) (stream : GoString)
    (fuel : Nat) (hfuel : stream.length < fuel) :
    (readData endErr fuel stream []).map Prod.snd = some (Exit.panicked endErr) ∧
    (readData endErr fuel stream []).map Prod.snd ≠ some Exit.returned := by
  have h := readData_exit endErr fuel stream [] hfuel
  refine ⟨h, ?_⟩
  rw [h]
  simp

/-- C12, witness: the peer sends `hi` and the connection is reset. -/
theorem readData_panics_on_read_error_witness :
    readData ReadError.connReset 4 "hi\n".toList []
      = some (["hi\n".toList], Exit.panicked ReadError.connReset) ∧
    (readData ReadError.connReset 4 "hi\n".toList []).map Prod.snd
      = some (Exit.panicked ReadError.connReset) :=
  ⟨by decide,
    (readData_panics_on_read_error ReadError.connReset "hi\n".toList 4 (by decide)).1⟩

/-- C12, counterexample: a peer that closes the stream at once, and a peer that
closes it after one line: `readData` panics with `EOF` in both runs. -/
theorem readData_close_panics :
    readData ReadError.EOF 1 [] [] = some ([], Exit.panicked ReadError.EOF) ∧
    readData ReadError.EOF 2 "bye\n".toList []
      = some (["bye\n".toList], Exit.panicked ReadError.EOF) ∧
    readData ReadError.EOF 2 "bye\n".toList [] ≠ some (["bye\n".toList], Exit.returned) := by
  decide

/-! ## Decoding a configuration document -/

theorem decodeStrings_of_all_str (old : List GoString) (items : List JValue)
    (h : items.all (fun it => it matches .str _) = true) :
    (decodeStrings old (.array items)).2 = true := by
  simp only [decodeStrings, List.all_eq_true] at h ⊢
  intro it hit
  have := h it hit
  cases it <;> simp_all [decodeString]

theorem setField_of_hasFieldType (cfg : Configuration) (f : Field) (v : JValue)
    (h : hasFieldType f v = true) : (setField cfg f v).2 = none := by
  cases f with
  | Port =>
    cases v with
    | number n =>
      cases n with
      | integer i =>
        have hi : -2 ^ 63 ≤ i ∧ i < 2 ^ 63 := by simpa [hasFieldType] using h
        simp only [setField, decodeInt, if_pos hi]
        rfl
      | other lit => simp [hasFieldType] at h
    | _ => simp [hasFieldType] at h
  | BootstrapPeers =>
    cases v with
    | array items =>
      have hs := decodeStrings_of_all_str cfg.BootstrapPeers items (by simpa [hasFieldType] using h)
      simp [setField, hs]
    | _ => simp [hasFieldType] at h
  | ListenIps =>
    cases v with
    | array items =>
      have hs := decodeStrings_of_all_str cfg.ListenIps items (by simpa [hasFieldType] using h)
      simp [setField, hs]
    | _ => simp [hasFieldType] at h
  | RendezvousString =>
    cases v with
    | str s => simp [setField, decodeString]
    | _ => simp [hasFieldType] at h
  | ProtocolID =>
    cases v with
    | str s => simp [setField, decodeString]
    | _ => simp [hasFieldType] at h
  | KeyFile =>
    cases v with
    | str s => simp [setField, decodeString]
    | _ => simp [hasFieldType] at h

theorem setField_get_other (cfg : Configuration) (f g : Field) (v : JValue) (h : f ≠ g) :
    g.get (setField cfg f v).1 = g.get cfg := by
  cases f <;> cases g <;> first | exact absurd rfl h | rfl

theorem unmarshalMembers_wellTyped (fold : GoString → GoString) :
    ∀ (members : List (GoString × JValue)) (cfg : Configuration)
      (err : Option UnmarshalTypeError),
      wellTyped fold members = true →
      (unmarshalMembers fold members (cfg, err)).2 = err := by
  intro members
  induction members with
  | nil => intro cfg err _; rfl
  | cons m rest ih =>
    intro cfg err h
    obtain ⟨key, v⟩ := m
    simp only [wellTyped, List.all_cons, Bool.and_eq_true] at h
    obtain ⟨hm, hrest⟩ := h
    cases hf : findField fold key with
    | none => simpa [unmarshalMembers, hf] using ih cfg err hrest
    | some f =>
      simp only [hf] at hm
      have hset := setField_of_hasFieldType cfg f v hm
      simp only [unmarshalMembers, hf, hset]
      rw [ih _ _ hrest]
      cases err <;> rfl

theorem unmarshalMembers_filter (fold : GoString → GoString) :
    ∀ (members : List (GoString × JValue)) (st : Configuration × Option UnmarshalTypeError),
      unmarshalMembers fold members st
        = unmarshalMembers fold (members.filter (fun m => (findField fold m.1).isSome)) st := by
  intro members
  induction members with
  | nil => intro st; rfl
  | cons m rest ih =>
    intro st
    obtain ⟨key, v⟩ := m
    obtain ⟨cfg, err⟩ := st
    cases hf : findField fold key with
    | none =>
      have hk : ((key, v) :: rest).filter (fun m => (findField fold m.1).isSome)
          = rest.filter (fun m => (findField fold m.1).isSome) := by
        simp [List.filter_cons, hf]
      rw [hk]
      simpa [unmarshalMembers, hf] using ih (cfg, err)
    | some f =>
      have hk : (key, v) :: rest.filter (fun m => (findField fold m.1).isSome)
          = ((key, v) :: rest).filter (fun m => (findField fold m.1).isSome) := by
        simp [List.filter_cons, hf]
      rw [← hk]
      simp only [unmarshalMembers, hf]
      exact ih _

theorem unmarshalMembers_unmatched (fold : GoString → GoString) (g : Field) :
    ∀ (members : List (GoString × JValue)) (cfg : Configuration)
      (err : Option UnmarshalTypeError),
      unmatched fold members g = true →
      g.get (unmarshalMembers fold members (cfg, err)).1 = g.get cfg := by
  intro members
  induction members with
  | nil => intro cfg err _; rfl
  | cons m rest ih =>
    intro cfg err h
    obtain ⟨key, v⟩ := m
    simp only [unmatched, List.all_cons, Bool.and_eq_true, decide_eq_true_eq] at h
    obtain ⟨hm, hrest⟩ := h
    have hrest2 : unmatched fold rest g = true := hrest
    cases hf : findField fold key with
    | none => simpa [unmarshalMembers, hf] using ih cfg err hrest2
    | some f =>
      have hfg : f ≠ g := fun hfg => hm (by rw [hf, hfg])
      simp only [unmarshalMembers, hf]
      rw [ih _ _ hrest2, setField_get_other cfg f g v hfg]

/-- C13: decoding a JSON object into `Configuration` succeeds whenever every
member that is matched to a field tag carries a value of that field's type,
whatever other members the object has: `LoadChatConfig` returns the decoded
configuration and no error, the members matched to no field tag are ignored, the
result being that of the object without them, and a field that no member is
matched to keeps its zero value. -/
theorem Unmarshal_ignores_unmatched_members (fold : GoString → GoString)
    (members : List (GoString × JValue)) (g : Field)
    (htyped : wellTyped fold members = true) (hg : unmatched fold members g = true) :
    (Unmarshal fold (.object members) Configuration.zero).2 = none ∧
    LoadChatConfig fold (.ok (some (.object members)))
      = (some (Unmarshal fold (.object members) Configuration.zero).1, none) ∧
    Unmarshal fold (.object members) Configuration.zero
      = Unmarshal fold
          (.object (members.filter (fun m => (findField fold m.1).isSome)))
          Configuration.zero ∧
    g.get (Unmarshal fold (.object members) Configuration.zero).1
      = g.get Configuration.zero := by
  have h1 : (Unmarshal fold (.object members) Configuration.zero).2 = none :=
    unmarshalMembers_wellTyped fold members _ none htyped
  refine ⟨h1, ?_, unmarshalMembers_filter fold members _,
    unmarshalMembers_unmatched fold g members _ none hg⟩
  rcases hu : Unmarshal fold (.object members) Configuration.zero with ⟨cfg, err⟩
  rw [hu] at h1
  simp only at h1
  subst h1
  simp [LoadChatConfig, hu]

/-- C13, witness: the document of `TestUnmarshalConfig`. Its members
`rendezvous_string` and `listen_addresses` are matched to no field tag; the
decoding succeeds, `RendezvousString` and `ListenIps` keep their zero value, and
`BootstrapPeers` is the one empty string of the document. -/
theorem Unmarshal_ignores_unmatched_members_witness :
    findField asciiFold "rendezvous_string".toList = none ∧
    findField asciiFold "listen_addresses".toList = none ∧
    LoadChatConfig asciiFold (.ok (some testJson))
      = (some { Configuration.zero with BootstrapPeers := [[]] }, none) ∧
    Field.ListenIps.get (Unmarshal asciiFold testJson Configuration.zero).1
      = FieldValue.strings [] :=
  ⟨by decide, by decide, by decide,
    (Unmarshal_ignores_unmatched_members asciiFold testMembers Field.ListenIps
      (by decide) (by decide)).2.2.2⟩

end P2pbbs
